import Mathlib

/-!
Verification development for the Swiss-pairing engine and tiebreak module of
the RepChessTgApp repository (src/lib/pairing.ts and src/lib/tiebreakers.ts).

The TypeScript code is embedded shallowly:
* JavaScript numbers carrying scores, tiebreak values and comparator results
  are modelled as `Rat` (all values arising here are half-point multiples, so
  rationals are exact); ratings and participant identifiers are integers.
* The in-place `Array.prototype.sort` of V8 (stable, comparator-based, as
  required by ECMAScript 2019) is modelled by a structurally recursive stable
  insertion sort `stableSort le` with `le a b := comparator a b ≤ 0`.
* The mutable `paired` flags of `Player` objects are modelled by an explicit
  set `pairedIds` of participant ids threaded through the pairing functions;
  the source allocates exactly one `Player` object per participant id (they
  come from a `Map` keyed by id), so object identity coincides with id
  equality.  The `floated` flag is written by the source but never read, and
  is kept as a field for faithfulness.
* Display-only fields (`nickname`, `userId`) that the algorithms never read
  are omitted.
* Database access is out of scope: the pure pairing and tiebreak algorithms
  are embedded as functions of the data the queries would return.
-/

/-! ## Basic data of src/lib/pairing.ts -/

unseal Rat.add Rat.mul Rat.inv Rat.sub

deriving instance DecidableEq for Except

/-- Piece colour, `'w' | 'b'` in the source. -/
inductive Color where
  | w : Color
  | b : Color
deriving DecidableEq, Repr

/-- Result label of a `RoundHistory` entry: `'win' | 'loss' | 'draw' | 'bye'`. -/
inductive GameResult where
  | win : GameResult
  | loss : GameResult
  | draw : GameResult
  | bye : GameResult
deriving DecidableEq, Repr

/-- One entry of a player's per-round history (interface `RoundHistory`).
`opponent = 0` encodes the absent opponent (the source uses `0` for byes and
tests truthiness). `color = none` encodes `null` (bye). -/
structure RoundHistory where
  opponent : Nat
  color : Option Color
  result : GameResult
deriving DecidableEq, Repr

instance : Inhabited RoundHistory := ⟨⟨0, none, GameResult.bye⟩⟩

/-- Interface `PlayerData` (score and buchholz are numbers in the source). -/
structure PlayerData where
  participantId : Nat
  rating : Int
  score : Rat
  buchholz : Rat
  rounds : List RoundHistory
deriving DecidableEq, Repr

/-- Class `Player` with the statistics its constructor derives.
`opponents` models the `Set<number>` (insertion order, no duplicates);
`paired` / `floated` are the scratch flags of the source. -/
structure Player where
  id : Nat
  rating : Int
  score : Rat
  buchholz : Rat
  rounds : List RoundHistory
  whiteCount : Nat
  blackCount : Nat
  lastColor : Option Color
  colorPreference : Int
  opponents : List Nat
  hadBye : Bool
  paired : Bool
  floated : Bool
deriving DecidableEq, Repr

instance : Inhabited Player :=
  ⟨⟨0, 0, 0, 0, [], 0, 0, none, 0, [], false, false, false⟩⟩

/-- `Set.add`: append the id unless already present. -/
def addOpponent (l : List Nat) (x : Nat) : List Nat :=
  if l.contains x then l else l ++ [x]

/-- The colour of the last two rounds when both are equal and non-null
(the `lastTwoSameColor` / `lastTwoColor` computation of
`updateColorPreference`). -/
def lastTwoColor (rounds : List RoundHistory) : Option Color :=
  if rounds.length ≥ 2 ∧
      (rounds.getD (rounds.length - 1) default).color =
        (rounds.getD (rounds.length - 2) default).color ∧
      (rounds.getD (rounds.length - 1) default).color ≠ none then
    (rounds.getD (rounds.length - 1) default).color
  else none

/-- Method `updateColorPreference` of class `Player` (FIDE colour preference
in `{-2, -1, 0, +1, +2}`, positive = white). -/
def computeColorPreference (whiteCount blackCount : Nat)
    (lastColor : Option Color) (rounds : List RoundHistory) : Int :=
  let diff : Int := (whiteCount : Int) - (blackCount : Int)
  let ltc := lastTwoColor rounds
  if diff > 1 ∨ ltc = some Color.w then -2
  else if diff < -1 ∨ ltc = some Color.b then 2
  else if diff = 1 then -1
  else if diff = -1 then 1
  else if diff = 0 then
    match lastColor with
    | some Color.w => -1
    | some Color.b => 1
    | none => 0
  else 0

/-- One step of the statistics fold in the `Player` constructor. -/
def ofDataStep (p : Player) (round : RoundHistory) : Player :=
  let p :=
    match round.color with
    | some Color.w => { p with whiteCount := p.whiteCount + 1, lastColor := some Color.w }
    | some Color.b => { p with blackCount := p.blackCount + 1, lastColor := some Color.b }
    | none => { p with hadBye := true, lastColor := none }
  if round.opponent ≠ 0 then { p with opponents := addOpponent p.opponents round.opponent }
  else p

/-- The `Player` constructor: initialise the statistics from the round
history, then `updateColorPreference`. -/
def Player.ofData (data : PlayerData) : Player :=
  let base : Player :=
    { id := data.participantId, rating := data.rating, score := data.score,
      buchholz := data.buchholz, rounds := data.rounds,
      whiteCount := 0, blackCount := 0, lastColor := none,
      colorPreference := 0, opponents := [], hadBye := false,
      paired := false, floated := false }
  let p := data.rounds.foldl ofDataStep base
  { p with colorPreference :=
      computeColorPreference p.whiteCount p.blackCount p.lastColor p.rounds }

/-- Method `canPairWith`: no rematch (checks only this player's history). -/
def Player.canPairWith (p other : Player) : Bool :=
  !(p.opponents.contains other.id)

/-- Method `getColorPenalty`. -/
def Player.getColorPenalty (p : Player) (color : Color) : Nat :=
  match color with
  | Color.w =>
    if p.colorPreference = -2 then 1000
    else if p.colorPreference = -1 then 100
    else if p.colorPreference = 0 then 1
    else 0
  | Color.b =>
    if p.colorPreference = 2 then 1000
    else if p.colorPreference = 1 then 100
    else if p.colorPreference = 0 then 1
    else 0

/-- Return value of `getColorArrangement`. -/
structure Arrangement where
  white : Player
  black : Player
  penalty : Nat
deriving DecidableEq, Repr

/-- Method `getColorArrangement`: choose the colour assignment with the lower
summed penalty; on a tie the player with the higher rating (ties going to the
receiver) takes white. -/
def Player.getColorArrangement (p other : Player) : Arrangement :=
  let penalty1 := p.getColorPenalty Color.w + other.getColorPenalty Color.b
  let penalty2 := p.getColorPenalty Color.b + other.getColorPenalty Color.w
  if penalty1 < penalty2 then ⟨p, other, penalty1⟩
  else if penalty2 < penalty1 then ⟨other, p, penalty2⟩
  else if other.rating ≤ p.rating then ⟨p, other, penalty1⟩
  else ⟨other, p, penalty2⟩

/-- Function `tryPair`. -/
def tryPair (p1 p2 : Player) : Option Arrangement :=
  if p1.canPairWith p2 then some (p1.getColorArrangement p2) else none

/-- Interface `Pairing` (`black = none` is the bye pair). -/
structure Pairing where
  white : Nat
  black : Option Nat
  boardNo : Nat
deriving DecidableEq, Repr

/-- The participant ids occurring in a list of pairings (the white and, when
present, the black of every pair). -/
def pairIds (prs : List Pairing) : List Nat :=
  prs.flatMap (fun pr => pr.white :: pr.black.toList)

/-! ## Stable sort

`Array.prototype.sort(comparator)` is stable (ECMAScript 2019); with a
consistent comparator its result is the unique stable order, which the
following structurally recursive insertion sort produces for
`le a b = (comparator a b ≤ 0)`. -/

/-- Insert `x` after every element `y` of the (sorted) list with `le y x`. -/
def stableInsert (le : α → α → Bool) (x : α) : List α → List α
  | [] => [x]
  | y :: ys => if le x y && !(le y x) then x :: y :: ys else y :: stableInsert le x ys

/-- Stable sort by a boolean `le` relation. -/
def stableSort (le : α → α → Bool) (l : List α) : List α :=
  l.foldl (fun acc x => stableInsert le x acc) []

/-! ## Pairing engine (src/lib/pairing.ts) -/

/-- The ids of a list of players. -/
def ids (l : List Player) : List Nat := l.map Player.id

/-- One step of `groupByScore`: append the player to its score group,
creating the group at the end on first sight (JS `Map` insertion order). -/
def upsertGroup : List (Rat × List Player) → Player → List (Rat × List Player)
  | [], p => [(p.score, [p])]
  | (s, g) :: rest, p =>
    if p.score = s then (s, g ++ [p]) :: rest else (s, g) :: upsertGroup rest p

/-- `groupByScore`: group players by exact score (insertion-ordered keys),
then sort each group by rating descending (comparator `b.rating - a.rating`). -/
def groupByScore (players : List Player) : List (Rat × List Player) :=
  (players.foldl upsertGroup []).map
    (fun sg => (sg.1, stableSort (fun a b => decide (b.rating ≤ a.rating)) sg.2))

/-- Whether the candidate at index `i` of the group can still pair with at
least one member of the next score group (no rematch). -/
def eligibleFloater (allPlayers next : List Player) (i : Nat) : Bool :=
  next.any (fun np => (allPlayers.getD i default).canPairWith np)

/-- The floater objective of `pairGroup`:
`score = |cp + avgNextPref| * 100 + (allPlayers.length - i)`. -/
def floaterObjective (allPlayers : List Player) (avg : Rat) (i : Nat) : Rat :=
  |((allPlayers.getD i default).colorPreference : Rat) + avg| * 100 +
    ((allPlayers.length - i : Nat) : Rat)

/-- One step of the floater-selection loop (strict improvement keeps the
first candidate found, i.e. the bottom-most, since the loop runs upward from
the bottom). `none` models `bestScore = Infinity`. -/
def floaterStep (allPlayers next : List Player) (avg : Rat)
    (best : Option Rat × Nat) (i : Nat) : Option Rat × Nat :=
  if eligibleFloater allPlayers next i then
    let score := floaterObjective allPlayers avg i
    match best.1 with
    | none => (some score, i)
    | some b => if score < b then (some score, i) else best
  else best

/-- The down-floater selection of `pairGroup`: scan the bottom half of the
group from the last index `length - 1` down to `⌊length / 2⌋`, minimising the
floater objective over candidates that can pair with the next group;
`bestFloaterIdx` starts at `length - 1`. -/
def chooseFloaterIdx (allPlayers : List Player) (avg : Rat) (next : List Player) : Nat :=
  let len := allPlayers.length
  let idxs := ((List.range len).drop (len / 2)).reverse
  (idxs.foldl (floaterStep allPlayers next avg) ((none : Option Rat), len - 1)).2

/-- Best legal S2 partner for `top`: scan S2 in order, skip used players,
keep the arrangement with strictly smaller penalty. -/
def findBestS2 (top : Player) (S2 : List Player) (used : List Nat) :
    Option (Arrangement × Player) :=
  S2.foldl
    (fun best bottom =>
      if used.contains bottom.id then best
      else
        match tryPair top bottom with
        | none => best
        | some arr =>
          match best with
          | none => some (arr, bottom)
          | some ba => if arr.penalty < ba.1.penalty then some (arr, bottom) else best)
    none

/-- Transposition inside S1: first other member of S1 (distinct, not used)
that `top` can pair with. -/
def findTransposition (top : Player) (S1 : List Player) (used : List Nat) :
    Option (Arrangement × Player) :=
  match S1.find? (fun other =>
      other.id != top.id && !(used.contains other.id) && (tryPair top other).isSome) with
  | none => none
  | some other => (tryPair top other).map (fun arr => (arr, other))

/-- The pairing emitted for an arrangement (board number set later). -/
def pairingOf (arr : Arrangement) : Pairing :=
  { white := arr.white.id, black := some arr.black.id, boardNo := 0 }

/-- State of the S1 pairing loop of `pairGroup`: ids already used, pairs
emitted so far, players pushed to `unpaired` so far. -/
structure LoopState where
  used : List Nat
  pairs : List Pairing
  unpaired : List Player
deriving DecidableEq, Repr

/-- The S1 loop of `pairGroup`: for each top (not yet used) find the best S2
partner; failing that, a transposition partner inside S1; failing that, push
the top to `unpaired`. -/
def pairS1Loop (S1full S2 : List Player) : List Player → LoopState → LoopState
  | [], st => st
  | top :: rest, st =>
    if st.used.contains top.id then pairS1Loop S1full S2 rest st
    else
      match findBestS2 top S2 st.used with
      | some ab =>
        pairS1Loop S1full S2 rest
          { used := st.used ++ [top.id, ab.2.id],
            pairs := st.pairs ++ [pairingOf ab.1],
            unpaired := st.unpaired }
      | none =>
        match findTransposition top S1full st.used with
        | some ao =>
          pairS1Loop S1full S2 rest
            { used := st.used ++ [top.id, ao.2.id],
              pairs := st.pairs ++ [pairingOf ao.1],
              unpaired := st.unpaired }
        | none =>
          pairS1Loop S1full S2 rest
            { st with unpaired := st.unpaired ++ [{ top with floated := true }] }

/-- Return value of `pairGroup` (plus the threaded paired-ids set standing in
for the mutable `paired` flags). -/
structure PairGroupResult where
  pairs : List Pairing
  unpaired : List Player
  pairedIds : List Nat
deriving DecidableEq, Repr

/-- Split into `S1 = slice(0, ⌈n/2⌉)`, `S2 = slice(⌈n/2⌉)`, run the S1 loop,
and append the leftover S2 players to `unpaired`. `fl` is the already chosen
down-floater (pushed to `unpaired` before the loop in the source). -/
def mainPairing (allPlayers fl : List Player) (pairedIds : List Nat) : PairGroupResult :=
  let S1 := allPlayers.take ((allPlayers.length + 1) / 2)
  let S2 := allPlayers.drop ((allPlayers.length + 1) / 2)
  let st := pairS1Loop S1 S2 S1 { used := [], pairs := [], unpaired := [] }
  let leftovers := (S2.filter (fun b => !(st.used.contains b.id))).map
    (fun p => { p with floated := true })
  { pairs := st.pairs, unpaired := fl ++ st.unpaired ++ leftovers,
    pairedIds := pairedIds ++ st.used }

/-- The merged group `pairGroup` works on: carried floaters first, then the
group, dropping already-paired players, with the `floated` flags reset. -/
def mergedGroup (group floaters : List Player) (pairedIds : List Nat) : List Player :=
  ((floaters ++ group).filter (fun p => !(pairedIds.contains p.id))).map
    (fun p => { p with floated := false })

/-- The average colour preference of the next score group
(`avgNextPref` in `pairGroup`). -/
def avgNextPrefOf (nextGroupPlayers : List Player) : Rat :=
  (nextGroupPlayers.map (fun p => (p.colorPreference : Rat))).sum /
    (nextGroupPlayers.length : Rat)

/-- Function `pairGroup`: merge carried floaters with the group (dropping
already-paired players), reset `floated`, extract a down-floater when the
merged group is odd and a next group exists, then pair top half against
bottom half. -/
def pairGroup (group floaters nextGroupPlayers : List Player)
    (pairedIds : List Nat) : PairGroupResult :=
  let all0 := mergedGroup group floaters pairedIds
  if all0.length % 2 == 1 && nextGroupPlayers.length != 0 then
    let idx := chooseFloaterIdx all0 (avgNextPrefOf nextGroupPlayers) nextGroupPlayers
    let chosen := all0.getD idx default
    mainPairing (all0.eraseIdx idx) [{ chosen with floated := true }] pairedIds
  else
    mainPairing all0 [] pairedIds

/-- The residual floater loop of `generateSubsequentRoundPairings` with
explicit fuel (the loop removes two players per iteration, so
`fuel = length` suffices; the fuel-exhausted branch is unreachable).
Take the first floater, pair it with the first remaining floater it can play
(removing both), and stop — putting the first floater back at the end — as
soon as it can pair with nobody. -/
def residualLoop : Nat → List Player → List Pairing × List Player
  | _, [] => ([], [])
  | _, [p] => ([], [p])
  | 0, fl => ([], fl)
  | fuel + 1, p1 :: rest =>
    match rest.findIdx? (fun p2 => (tryPair p1 p2).isSome) with
    | some i =>
      match tryPair p1 (rest.getD i default) with
      | some arr =>
        let r := residualLoop fuel (rest.eraseIdx i)
        (pairingOf arr :: r.1, r.2)
      | none => ([], rest ++ [p1])
    | none => ([], rest ++ [p1])

/-- The `while (floaters.length >= 2)` loop. -/
def residualPass (floaters : List Player) : List Pairing × List Player :=
  residualLoop floaters.length floaters

/-- Comparator of the bye-candidate sort: players who never had a bye first,
then lower score, then lower Buchholz (translated to `comparator ≤ 0`). -/
def byeLe (a b : Player) : Bool :=
  if a.hadBye != b.hadBye then !a.hadBye
  else if a.score != b.score then decide (a.score < b.score)
  else decide (a.buchholz ≤ b.buchholz)

/-- The per-score-group loop of `generateSubsequentRoundPairings`: process
groups from the highest score down, feeding each group the unpaired players
of the previous one. -/
def groupLoop (groups : List (Rat × List Player)) :
    List Rat → List Player → List Nat → List Pairing →
    List Pairing × List Player × List Nat
  | [], floaters, pairedIds, acc => (acc, floaters, pairedIds)
  | s :: restScores, floaters, pairedIds, acc =>
    let group := ((groups.lookup s).getD [])
    let nextGroup :=
      match restScores with
      | [] => []
      | s' :: _ => (groups.lookup s').getD []
    let r := pairGroup group floaters nextGroup pairedIds
    groupLoop groups restScores r.unpaired r.pairedIds (acc ++ r.pairs)

/-- Function `generateSubsequentRoundPairings` (rounds ≥ 2): pick a bye
candidate when the count is odd, pair score groups from top to bottom with
down-floaters, pair residual floaters pairwise, fall back to giving the last
single floater the bye, and renumber boards `1..`. -/
def generateSubsequentRoundPairings (players : List Player) : List Pairing :=
  let byeActive : Option Player × List Player × List Nat :=
    if players.length % 2 == 1 then
      match stableSort byeLe players with
      | [] => (none, players, [])
      | bp :: _ => (some bp, players.filter (fun p => p.id ≠ bp.id), [bp.id])
    else (none, players, [])
  let byePlayer0 := byeActive.1
  let activePlayers := byeActive.2.1
  let pairedIds0 := byeActive.2.2
  let groups := groupByScore activePlayers
  let sortedScores := stableSort (fun a b => decide (b ≤ a)) (groups.map Prod.fst)
  let glr := groupLoop groups sortedScores [] pairedIds0 []
  let afterGroups := glr.1
  let rp := residualPass glr.2.1
  let byePlayer : Option Player :=
    match rp.2 with
    | [f] => some f
    | _ => byePlayer0
  let allPairs := afterGroups ++ rp.1 ++
    (match byePlayer with
     | some bp => [{ white := bp.id, black := none, boardNo := 0 }]
     | none => [])
  allPairs.mapIdx (fun i pr => { pr with boardNo := i + 1 })

/-- Function `generateRound1Pairings`: if the count is odd the participant
with the largest id (last registrant) gets the bye; the rest are sorted by
rating descending, split in half, `top[i]` vs `bottom[i]`, colours chosen by
`Math.random() < 0.5` (modelled by the injected `rand`). -/
def generateRound1Pairings (players : List Player) (rand : Nat → Bool) : List Pairing :=
  let byeActive : Option Player × List Player :=
    if players.length % 2 == 1 then
      match stableSort (fun a b => decide (b.id ≤ a.id)) players with
      | [] => (none, players)
      | bp :: rest => (some bp, rest)
    else (none, players)
  let sorted := stableSort (fun a b => decide (b.rating ≤ a.rating)) byeActive.2
  let half := sorted.length / 2
  let top := sorted.take half
  let bottom := sorted.drop half
  let pairs := (List.range bottom.length).map (fun i =>
    let p1 := top.getD i default
    let p2 := bottom.getD i default
    let whiteFirst := rand i
    { white := if whiteFirst then p1.id else p2.id,
      black := some (if whiteFirst then p2.id else p1.id),
      boardNo := i + 1 : Pairing })
  pairs ++
    (match byeActive.1 with
     | some bp => [{ white := bp.id, black := none, boardNo := pairs.length + 1 }]
     | none => [])

/-- The pure core of `generateSwissPairings` after the database reads: refuse
when there are no active participants (`throw new Error('No active
participants found')`), otherwise dispatch on the round number. -/
def generateSwissPairingsCore (currentRoundNum : Nat) (players : List Player)
    (rand : Nat → Bool) : Except String (List Pairing) :=
  if players.length = 0 then Except.error "No active participants found"
  else Except.ok
    (if currentRoundNum = 1 then generateRound1Pairings players rand
     else generateSubsequentRoundPairings players)

/-! ## Tiebreak module (src/lib/tiebreakers.ts) -/

/-- Result label of `PlayerStanding.results`. -/
inductive TBResult where
  | win : TBResult
  | loss : TBResult
  | draw : TBResult
  | bye : TBResult
  | forfeit_win : TBResult
  | forfeit_loss : TBResult
deriving DecidableEq, Repr

/-- The optional cached tiebreak values (`PlayerStanding.tiebreakers`). -/
structure TieBreakCache where
  buchholz : Option Rat := none
  buchholzCut1 : Option Rat := none
  medianBuchholz : Option Rat := none
  sonnebornBerger : Option Rat := none
  numberOfWins : Option Rat := none
  headToHead : Option Rat := none
deriving DecidableEq, Repr

/-- Interface `PlayerStanding`. -/
structure PlayerStanding where
  participantId : Nat
  score : Rat
  adjustedScore : Rat
  opponents : List Nat
  results : List TBResult
  matchScores : List Rat
  roundNumbers : List Nat
  virtualOpponentScores : List Rat
  tiebreakers : TieBreakCache
deriving DecidableEq, Repr

instance : Inhabited PlayerStanding := ⟨⟨0, 0, 0, [], [], [], [], [], {}⟩⟩

/-- Interface `MatchData` (nullable database fields as `Option`). -/
structure MatchData where
  white_participant_id : Option Nat
  black_participant_id : Option Nat
  score_white : Option Rat
  score_black : Option Rat
  result : Option String
  round_number : Nat
deriving DecidableEq, Repr

/-- JavaScript truthiness of a nullable id (`null` and `0` are falsy). -/
def optId (o : Option Nat) : Nat := o.getD 0

/-- The standings map, in participant insertion order. -/
abbrev Standings := List (Nat × PlayerStanding)

/-- `standings.get(id)`. -/
def getStanding (s : Standings) (id : Nat) : Option PlayerStanding :=
  (List.lookup id s)

/-- Update the standing of `id` when present (`standings.get` + mutation). -/
def updStanding (s : Standings) (id : Nat) (f : PlayerStanding → PlayerStanding) :
    Standings :=
  s.map (fun kv => if kv.1 = id then (kv.1, f kv.2) else kv)

/-- The white side of the first pass of `buildStandings`. -/
def whiteUpd (m : MatchData) (ws : PlayerStanding) : PlayerStanding :=
  let sw := m.score_white.getD 0
  let base := { ws with score := ws.score + sw,
                        roundNumbers := ws.roundNumbers ++ [m.round_number] }
  let bId := optId m.black_participant_id
  if bId ≠ 0 then
    let res := m.result.getD ""
    let ra : TBResult × Rat :=
      if res = "white" then (TBResult.win, sw)
      else if res = "black" then (TBResult.loss, sw)
      else if res = "draw" then (TBResult.draw, sw)
      else if res = "forfeit_black" then (TBResult.forfeit_win, 1/2)
      else if res = "forfeit_white" then (TBResult.forfeit_loss, 1/2)
      else (TBResult.draw, sw)
    { base with opponents := base.opponents ++ [bId],
                results := base.results ++ [ra.1],
                adjustedScore := base.adjustedScore + ra.2,
                matchScores := base.matchScores ++ [sw] }
  else
    { base with results := base.results ++ [TBResult.bye],
                adjustedScore := base.adjustedScore + (if sw ≥ 1 then 1/2 else sw),
                matchScores := base.matchScores ++ [sw] }

/-- The black side of the first pass of `buildStandings` (note: when the
white id is absent nothing beyond score and round number is recorded, exactly
as in the source). -/
def blackUpd (m : MatchData) (bs : PlayerStanding) : PlayerStanding :=
  let sb := m.score_black.getD 0
  let base := { bs with score := bs.score + sb,
                        roundNumbers := bs.roundNumbers ++ [m.round_number] }
  let wId := optId m.white_participant_id
  if wId ≠ 0 then
    let res := m.result.getD ""
    let ra : TBResult × Rat :=
      if res = "black" then (TBResult.win, sb)
      else if res = "white" then (TBResult.loss, sb)
      else if res = "draw" then (TBResult.draw, sb)
      else if res = "forfeit_white" then (TBResult.forfeit_win, 1/2)
      else if res = "forfeit_black" then (TBResult.forfeit_loss, 1/2)
      else (TBResult.draw, sb)
    { base with opponents := base.opponents ++ [wId],
                results := base.results ++ [ra.1],
                adjustedScore := base.adjustedScore + ra.2,
                matchScores := base.matchScores ++ [sb] }
  else base

/-- Process one match row in the first pass of `buildStandings`. -/
def processMatch (s : Standings) (m : MatchData) : Standings :=
  let s := if optId m.white_participant_id ≠ 0 then
    updStanding s (optId m.white_participant_id) (whiteUpd m) else s
  if optId m.black_participant_id ≠ 0 then
    updStanding s (optId m.black_participant_id) (blackUpd m) else s

/-- `totalRounds`: the highest round number among the matches supplied. -/
def totalRoundsOf (matchRows : List MatchData) : Nat :=
  matchRows.foldl (fun mx m => max mx m.round_number) 0

/-- The recursion of the second pass of `buildStandings`: walk the rounds in
ascending round-number order keeping the running score; on a bye round push
`Svon = S_before_round + (1 - SfPR) + 0.5 * (totalRounds - roundNumber)`. -/
def virtualScoresGo (p : PlayerStanding) (totalRounds : Nat) :
    Rat → List (Nat × Nat) → List Rat
  | _, [] => []
  | running, e :: rest =>
    let i := e.1
    let rn := e.2
    let roundScore := p.matchScores.getD i 0
    (if p.results.get? i = some TBResult.bye then
      [running + (1 - roundScore) + (1 : Rat)/2 * ((totalRounds : Rat) - (rn : Rat))]
     else []) ++ virtualScoresGo p totalRounds (running + roundScore) rest

/-- The second pass of `buildStandings` for one player: sort the per-round
indices by round number (stable), then accumulate. -/
def virtualScores (p : PlayerStanding) (totalRounds : Nat) : List Rat :=
  let sortedIndices :=
    stableSort (fun a b => decide (a.2 ≤ b.2)) p.roundNumbers.enum
  virtualScoresGo p totalRounds 0 sortedIndices

/-- Function `buildStandings` as a function of the participant ids and the
match rows (with round numbers already joined on): empty standings per
participant, one pass over the matches, then the virtual-opponent pass. -/
def buildStandingsFirst (participants : List Nat) (matchRows : List MatchData) :
    Standings :=
  matchRows.foldl processMatch (participants.map (fun id =>
    (id, { participantId := id, score := 0, adjustedScore := 0, opponents := [],
           results := [], matchScores := [], roundNumbers := [],
           virtualOpponentScores := [], tiebreakers := {} })))

def buildStandings (participants : List Nat) (matchRows : List MatchData) : Standings :=
  (buildStandingsFirst participants matchRows).map (fun kv => (kv.1, { kv.2 with
    virtualOpponentScores := virtualScores kv.2 (totalRoundsOf matchRows) }))

/-- One step of the `calculateHeadToHead` loop: state is
`(score1, score2, gamesPlayed)`. -/
def headToHeadStep (p1 p2 : PlayerStanding) (st : Rat × Rat × Nat) (i : Nat) :
    Rat × Rat × Nat :=
  if p1.opponents.getD i 0 = p2.participantId then
    match p1.results.get? i with
    | some TBResult.win => (st.1 + 1, st.2.1, st.2.2 + 1)
    | some TBResult.forfeit_win => (st.1 + 1, st.2.1, st.2.2 + 1)
    | some TBResult.draw => (st.1 + 1/2, st.2.1 + 1/2, st.2.2 + 1)
    | some TBResult.loss => (st.1, st.2.1 + 1, st.2.2 + 1)
    | some TBResult.forfeit_loss => (st.1, st.2.1 + 1, st.2.2 + 1)
    | _ => (st.1, st.2.1, st.2.2 + 1)
  else st

/-- Function `calculateHeadToHead`: walk `player1.opponents` by index,
accumulate the two mutual scores from `player1.results[i]`, and return the
sign (`1`, `-1` or `0`). -/
def calculateHeadToHead (p1 p2 : PlayerStanding) : Rat :=
  let st := (List.range p1.opponents.length).foldl (headToHeadStep p1 p2) (0, 0, 0)
  if st.2.2 = 0 then 0
  else if st.1 > st.2.1 then 1
  else if st.1 < st.2.1 then -1
  else 0

/-- One step of `collectOpponentScores`: state is
`(opponentIdx, virtualIdx, scores)`. -/
def collectStep (p : PlayerStanding) (standings : Standings)
    (st : Nat × Nat × List Rat) (i : Nat) : Nat × Nat × List Rat :=
  if p.results.getD i TBResult.draw = TBResult.bye then
    if st.2.1 < p.virtualOpponentScores.length then
      (st.1, st.2.1 + 1, st.2.2 ++ [p.virtualOpponentScores.getD st.2.1 0])
    else st
  else
    if st.1 < p.opponents.length then
      match getStanding standings (p.opponents.getD st.1 0) with
      | some opp => (st.1 + 1, st.2.1, st.2.2 ++ [opp.adjustedScore])
      | none => (st.1 + 1, st.2.1, st.2.2)
    else st

/-- Function `collectOpponentScores`: the opponent scores entering the
Buchholz family — the virtual opponent score for bye rounds, the opponent's
`adjustedScore` otherwise. -/
def collectOpponentScores (p : PlayerStanding) (standings : Standings) : List Rat :=
  ((List.range p.results.length).foldl (collectStep p standings) (0, 0, [])).2.2

/-- Function `calculateBuchholz`. -/
def calculateBuchholz (p : PlayerStanding) (standings : Standings) : Rat :=
  (collectOpponentScores p standings).sum

/-- Function `calculateBuchholzCut1`: Buchholz minus the single smallest
opponent score (no cut when there is at most one term). -/
def calculateBuchholzCut1 (p : PlayerStanding) (standings : Standings) : Rat :=
  let scores := collectOpponentScores p standings
  if scores.length ≤ 1 then scores.sum
  else scores.sum - (scores.foldr min (scores.getD 0 0))

/-- Function `calculateMedianBuchholz`: Buchholz minus the smallest and the
largest opponent scores (no cut when there are at most two terms). -/
def calculateMedianBuchholz (p : PlayerStanding) (standings : Standings) : Rat :=
  let scores := collectOpponentScores p standings
  if scores.length ≤ 2 then scores.sum
  else ((stableSort (fun a b => decide (a ≤ b)) scores).drop 1).dropLast.sum

/-- Function `calculateSonnebornBerger`. -/
def calculateSonnebornBerger (p : PlayerStanding) (standings : Standings) : Rat :=
  (List.range p.opponents.length).foldl
    (fun sum i =>
      match getStanding standings (p.opponents.getD i 0) with
      | none => sum
      | some opp =>
        match p.results.get? i with
        | some TBResult.win => sum + opp.adjustedScore
        | some TBResult.forfeit_win => sum + opp.adjustedScore
        | some TBResult.draw => sum + opp.adjustedScore * (1/2)
        | _ => sum)
    0

/-- Function `calculateNumberOfWins`. -/
def calculateNumberOfWins (p : PlayerStanding) : Rat :=
  (p.results.filter (fun r => r = TBResult.win ∨ r = TBResult.forfeit_win)).length

/-- JavaScript `String.prototype.split(',')` on the underlying character
list (splits at every comma; the empty string yields `[""]`). -/
def splitCommaChars : List Char → List (List Char)
  | [] => [[]]
  | c :: rest =>
    match splitCommaChars rest with
    | [] => [[]]
    | g :: gs => if c = ',' then [] :: g :: gs else (c :: g) :: gs

/-- `tiebreakers.split(',')` (JavaScript semantics, modelled structurally so
that it evaluates inside the kernel; `String.splitOn` has the same value but
is defined by well-founded recursion). -/
def jsSplitComma (s : String) : List String :=
  (splitCommaChars s.toList).map List.asString

/-- `t.trim().toLowerCase()` (JavaScript semantics, modelled structurally). -/
def jsTrimLower (s : String) : String :=
  (((s.toList.dropWhile Char.isWhitespace).reverse.dropWhile
      Char.isWhitespace).reverse.map Char.toLower).asString

/-- The tiebreaker-key loop of `comparePlayersWithTiebreakers`; unknown keys
fall through (the `switch` has no default). -/
def compareTbKeys (p1 p2 : PlayerStanding) (standings : Standings) :
    List String → Rat
  | [] => 0
  | t :: rest =>
    if t = "head_to_head" ∨ t = "head-to-head" ∨ t = "h2h" ∨ t = "direct_encounter" then
      let h2h := calculateHeadToHead p1 p2
      if h2h ≠ 0 then -h2h else compareTbKeys p1 p2 standings rest
    else if t = "buchholz" then
      let bh1 := (p1.tiebreakers.buchholz).getD (calculateBuchholz p1 standings)
      let bh2 := (p2.tiebreakers.buchholz).getD (calculateBuchholz p2 standings)
      if |bh1 - bh2| > 1/1000 then bh2 - bh1 else compareTbKeys p1 p2 standings rest
    else if t = "buchholz_cut1" ∨ t = "buchholz-cut1" ∨ t = "cut1" then
      let b1 := (p1.tiebreakers.buchholzCut1).getD (calculateBuchholzCut1 p1 standings)
      let b2 := (p2.tiebreakers.buchholzCut1).getD (calculateBuchholzCut1 p2 standings)
      if |b1 - b2| > 1/1000 then b2 - b1 else compareTbKeys p1 p2 standings rest
    else if t = "median_buchholz" ∨ t = "median-buchholz" ∨ t = "median" then
      let m1 := (p1.tiebreakers.medianBuchholz).getD (calculateMedianBuchholz p1 standings)
      let m2 := (p2.tiebreakers.medianBuchholz).getD (calculateMedianBuchholz p2 standings)
      if |m1 - m2| > 1/1000 then m2 - m1 else compareTbKeys p1 p2 standings rest
    else if t = "sonneborn_berger" ∨ t = "sonneborn-berger" ∨ t = "sb" then
      let s1 := (p1.tiebreakers.sonnebornBerger).getD (calculateSonnebornBerger p1 standings)
      let s2 := (p2.tiebreakers.sonnebornBerger).getD (calculateSonnebornBerger p2 standings)
      if |s1 - s2| > 1/1000 then s2 - s1 else compareTbKeys p1 p2 standings rest
    else if t = "number_of_wins" ∨ t = "wins" then
      let w1 := (p1.tiebreakers.numberOfWins).getD (calculateNumberOfWins p1)
      let w2 := (p2.tiebreakers.numberOfWins).getD (calculateNumberOfWins p2)
      if w1 ≠ w2 then w2 - w1 else compareTbKeys p1 p2 standings rest
    else compareTbKeys p1 p2 standings rest

/-- Function `comparePlayersWithTiebreakers`: score first (descending), then
the configured tiebreak keys in order; negative means `player1` ranks above
`player2`. -/
def comparePlayersWithTiebreakers (p1 p2 : PlayerStanding) (tiebreakers : String)
    (standings : Standings) : Rat :=
  if p1.score ≠ p2.score then p2.score - p1.score
  else
    let keys := ((jsSplitComma tiebreakers).map jsTrimLower).filter (fun t => t ≠ "")
    compareTbKeys p1 p2 standings keys

/-! ## Player-data construction inside `generateSwissPairings`
(src/lib/pairing.ts lines 544-626) -/

/-- The result label the pairing engine derives for the white side of a
match row. -/
def roundResultWhite (res : String) : GameResult :=
  if res = "white" ∨ res = "forfeit_black" then GameResult.win
  else if res = "black" ∨ res = "forfeit_white" then GameResult.loss
  else if res = "draw" then GameResult.draw
  else GameResult.bye

/-- The result label the pairing engine derives for the black side of a
match row. -/
def roundResultBlack (res : String) : GameResult :=
  if res = "black" ∨ res = "forfeit_white" then GameResult.win
  else if res = "white" ∨ res = "forfeit_black" then GameResult.loss
  else if res = "draw" then GameResult.draw
  else GameResult.bye

/-- The `playerDataMap` (a `Map` keyed by participant id, insertion order). -/
abbrev PlayerDataMap := List (Nat × PlayerData)

/-- Update the entry of `id` when present. -/
def updPlayerData (s : PlayerDataMap) (id : Nat)
    (f : PlayerData → PlayerData) : PlayerDataMap :=
  s.map (fun kv => if kv.1 = id then (kv.1, f kv.2) else kv)

/-- Ingest one historical match row into the player-data map (the body of
the `for (const match of allMatches)` loop). -/
def ingestMatch (s : PlayerDataMap) (m : MatchData) : PlayerDataMap :=
  let wId := optId m.white_participant_id
  let bId := optId m.black_participant_id
  let res := m.result.getD ""
  let s := if wId ≠ 0 then
    updPlayerData s wId (fun pd =>
      { pd with score := pd.score + m.score_white.getD 0,
                rounds := pd.rounds ++
                  [{ opponent := bId,
                     color := if bId ≠ 0 then some Color.w else none,
                     result := roundResultWhite res }] })
    else s
  if bId ≠ 0 then
    updPlayerData s bId (fun pd =>
      { pd with score := pd.score + m.score_black.getD 0,
                rounds := pd.rounds ++
                  [{ opponent := wId,
                     color := some Color.b,
                     result := roundResultBlack res }] })
  else s

/-- The Buchholz the pairing engine computes internally (lines 616-626): for
each recorded round with a non-zero opponent id present in the map, add that
opponent's raw cumulative score. -/
def pairingBuchholzOf (s : PlayerDataMap) (pd : PlayerData) : Rat :=
  pd.rounds.foldl
    (fun buch round =>
      if round.opponent ≠ 0 then
        match List.lookup round.opponent s with
        | some opp => buch + opp.score
        | none => buch
      else buch)
    0

/-- The player-data construction of `generateSwissPairings`: initialise one
entry per active participant `(id, rating)`, ingest all matches of earlier
rounds, then fill in the internal Buchholz. -/
def buildPlayerDataFirst (participants : List (Nat × Int))
    (matchRows : List MatchData) : PlayerDataMap :=
  matchRows.foldl ingestMatch (participants.map (fun pr =>
    (pr.1, { participantId := pr.1, rating := pr.2, score := 0, buchholz := 0,
             rounds := [] })))

def buildPlayerData (participants : List (Nat × Int))
    (matchRows : List MatchData) : PlayerDataMap :=
  (buildPlayerDataFirst participants matchRows).map (fun kv => (kv.1, { kv.2 with
    buchholz := pairingBuchholzOf (buildPlayerDataFirst participants matchRows) kv.2 }))

/-! ## Spec-side definitions (used to compare the code with the
specification's wording) -/

/-- Symmetric opponent histories: whenever one roster member records another
as a past opponent, the converse is recorded too. -/
def SymOpponents (players : List Player) : Prop :=
  ∀ p ∈ players, ∀ q ∈ players,
    p.opponents.contains q.id = true → q.opponents.contains p.id = true

/-- Modelled from the spec: the down-floater choice described in §4.2.3 —
among bottom-half candidates that can pair with the next group, the index
minimising `100·|cp + avg_cp_next| + position_from_top` (positions counted
from the top of the group, 1-based), ties toward the lowest-ranked
candidate. -/
def floaterObjectiveSpec (allPlayers : List Player) (avg : Rat) (i : Nat) : Rat :=
  |((allPlayers.getD i default).colorPreference : Rat) + avg| * 100 + ((i + 1 : Nat) : Rat)

/-- Modelled from the spec: the candidate index selected by the spec's
down-floater rule (scanning bottom-half candidates from the bottom so that
ties go to the lowest-ranked one, keeping a candidate on a tie). -/
def chooseFloaterIdxSpec (allPlayers : List Player) (avg : Rat) (next : List Player) :
    Nat :=
  let len := allPlayers.length
  let idxs := ((List.range len).drop (len / 2)).reverse
  (idxs.foldl
    (fun best i =>
      if eligibleFloater allPlayers next i then
        let score := floaterObjectiveSpec allPlayers avg i
        match best.1 with
        | none => (some score, i)
        | some b => if score < b then (some score, i) else best
      else best)
    ((none : Option Rat), len - 1)).2

/-- The accumulated real score just before the round at index `i`: the sum
of the points scored in all recorded rounds with a smaller round number
(`p.roundNumbers.enum` lists the pairs (index, round number)). -/
def scoreBeforeRound (p : PlayerStanding) (i : Nat) : Rat :=
  ((p.roundNumbers.enum.filter
    (fun e => e.2 < p.roundNumbers.getD i 0)).map
    (fun e => p.matchScores.getD e.1 0)).sum

/-- The position of the bye at index `i` inside `virtualOpponentScores`: the
number of bye rounds with a smaller round number. -/
def byePosition (p : PlayerStanding) (i : Nat) : Nat :=
  (p.roundNumbers.enum.filter
    (fun e => p.results.get? e.1 = some TBResult.bye ∧
      e.2 < p.roundNumbers.getD i 0)).length

/-! ## Concrete instances used by counterexamples and witnesses -/

/-- A 1800-rated player who played one game as white (colour preference -1,
prefers black). -/
def cexHigh : Player := Player.ofData ⟨1, 1800, 1, 0, [⟨3, some Color.w, GameResult.draw⟩]⟩

/-- A 1600-rated player who played one game as white (colour preference -1,
prefers black). -/
def cexLow : Player := Player.ofData ⟨2, 1600, 1, 0, [⟨4, some Color.w, GameResult.draw⟩]⟩

/-- A player with four games as black then two as white: colour difference
`2 - 4 = -2 < -1` and the last two rounds both white. -/
def cexColorPref : Player := Player.ofData ⟨1, 1500, 0, 0,
  [⟨11, some Color.b, GameResult.loss⟩, ⟨12, some Color.b, GameResult.loss⟩,
   ⟨13, some Color.b, GameResult.loss⟩, ⟨14, some Color.b, GameResult.loss⟩,
   ⟨15, some Color.w, GameResult.win⟩, ⟨16, some Color.w, GameResult.win⟩]⟩

/-- Witness data for the amended colour-preference claim: three games as
black, one as white (colour difference `-2`, last two rounds of different
colours). -/
def witColorPrefData : PlayerData := ⟨5, 1500, 0, 0,
  [⟨11, some Color.b, GameResult.loss⟩, ⟨12, some Color.b, GameResult.loss⟩,
   ⟨13, some Color.b, GameResult.loss⟩, ⟨14, some Color.w, GameResult.win⟩]⟩

/-- A lone active participant. -/
def cexLone : Player := Player.ofData ⟨9, 1000, 0, 0, []⟩

/-- Two players who already played each other in round 1 (winner and
loser). -/
def cexRematchA : Player := Player.ofData ⟨1, 1600, 1, 0, [⟨2, some Color.w, GameResult.win⟩]⟩

/-- The round-1 loser of `cexRematchA`. -/
def cexRematchB : Player := Player.ofData ⟨2, 1500, 0, 1, [⟨1, some Color.b, GameResult.loss⟩]⟩

/-- Four players of equal score who have all already played each other
(complete graph of prior games). -/
def cexCompleteFour : List Player :=
  [Player.ofData ⟨1, 1800, (3:Rat)/2, 0,
    [⟨2, some Color.w, GameResult.draw⟩, ⟨3, some Color.w, GameResult.win⟩,
     ⟨4, some Color.b, GameResult.draw⟩]⟩,
   Player.ofData ⟨2, 1700, (3:Rat)/2, 0,
    [⟨1, some Color.b, GameResult.draw⟩, ⟨4, some Color.w, GameResult.win⟩,
     ⟨3, some Color.b, GameResult.draw⟩]⟩,
   Player.ofData ⟨3, 1600, (3:Rat)/2, 0,
    [⟨4, some Color.b, GameResult.win⟩, ⟨1, some Color.b, GameResult.loss⟩,
     ⟨2, some Color.w, GameResult.draw⟩]⟩,
   Player.ofData ⟨4, 1500, (3:Rat)/2, 0,
    [⟨3, some Color.w, GameResult.loss⟩, ⟨2, some Color.b, GameResult.loss⟩,
     ⟨1, some Color.w, GameResult.draw⟩]⟩]

/-- Two fresh players (no history). -/
def witFreshPair : List Player :=
  [Player.ofData ⟨1, 1700, 0, 0, []⟩, Player.ofData ⟨2, 1500, 0, 0, []⟩]

/-- Three fresh players of equal score for the roster-conservation witness. -/
def witFreshTrio : List Player :=
  [Player.ofData ⟨1, 1700, 1, 0, [⟨4, some Color.w, GameResult.win⟩]⟩,
   Player.ofData ⟨2, 1500, 1, 0, [⟨5, some Color.b, GameResult.win⟩]⟩,
   Player.ofData ⟨3, 1400, 1, 0, [⟨6, some Color.w, GameResult.win⟩]⟩]

/-- A score group of five fresh players (ratings descending, all neutral
colour preference) for the floater-choice claims. -/
def cexFloaterGroup : List Player :=
  [Player.ofData ⟨1, 1800, 1, 0, []⟩, Player.ofData ⟨2, 1700, 1, 0, []⟩,
   Player.ofData ⟨3, 1600, 1, 0, []⟩, Player.ofData ⟨4, 1500, 1, 0, []⟩,
   Player.ofData ⟨5, 1400, 1, 0, []⟩]

/-- The next score group for the floater-choice claims. -/
def cexFloaterNext : List Player := [Player.ofData ⟨6, 1300, 0, 0, []⟩]

/-- Match-row shorthand for the concrete tournaments. -/
def mkRow (w b : Option Nat) (sw sb : Rat) (res : String) (rn : Nat) : MatchData :=
  ⟨w, b, some sw, some sb, some res, rn⟩

/-- Three-player tournament in which participant 1 has a bye in round 1 and
then beats participant 2 in round 2 (their only mutual game). -/
def h2hRows : List MatchData :=
  [mkRow (some 1) none 1 0 "bye" 1,
   mkRow (some 2) (some 3) 1 0 "white" 1,
   mkRow (some 1) (some 2) 1 0 "white" 2,
   mkRow (some 3) none 1 0 "bye" 2]

/-- Standings of `h2hRows`. -/
def h2hStandings : Standings := buildStandings [1, 2, 3] h2hRows

/-- Five-player tournament leaving participants 1 and 2 tied on 2 points,
with participant 1 having had a round-1 bye before beating participant 2 in
round 2 (their only mutual game). -/
def antisymRows : List MatchData :=
  [mkRow (some 1) none 1 0 "bye" 1,
   mkRow (some 2) (some 3) 1 0 "white" 1,
   mkRow (some 4) (some 5) 1 0 "white" 1,
   mkRow (some 1) (some 2) 1 0 "white" 2,
   mkRow (some 4) (some 3) 1 0 "white" 2,
   mkRow (some 5) none 1 0 "bye" 2,
   mkRow (some 4) (some 1) 1 0 "white" 3,
   mkRow (some 2) (some 5) 1 0 "white" 3,
   mkRow (some 3) none 1 0 "bye" 3]

/-- Standings of `antisymRows`. -/
def antisymStandings : Standings := buildStandings [1, 2, 3, 4, 5] antisymRows

/-- Two-participant tournament: participant 2 has a full-point bye in round
1, then loses to participant 1 in round 2. -/
def buchRows : List MatchData :=
  [mkRow (some 2) none 1 0 "bye" 1,
   mkRow (some 1) (some 2) 1 0 "white" 2]

/-- The map entry of participant 1 produced by `buildPlayerData` on
`buchRows`. -/
def buchEntry : Nat × PlayerData :=
  (1, { participantId := 1, rating := 1500, score := 1, buchholz := 1,
        rounds := [{ opponent := 2, color := some Color.w,
                     result := GameResult.win }] })

/-- Three-round history of participant 1: two wins then a full-point bye in
round 3 (the spec's scenario S4 with `n = 3`, `R = 3`, pre-round score 2). -/
def svonRows : List MatchData :=
  [mkRow (some 1) (some 2) 1 0 "white" 1,
   mkRow (some 1) (some 3) 1 0 "white" 2,
   mkRow (some 1) none 1 0 "bye" 3]

/-- Invariant of the floater-selection fold: either nothing eligible has
been seen and the state is the initial one, or the state holds the first
index attaining the minimum objective among the eligible indices processed
so far. -/
def FloaterInv (allPlayers next : List Player) (avg : Rat) (d0 : Nat)
    (pre : List Nat) (st : Option Rat × Nat) : Prop :=
  (st = (none, d0) ∧ ∀ j ∈ pre, eligibleFloater allPlayers next j = false) ∨
  (∃ pre1 pre2, pre = pre1 ++ st.2 :: pre2 ∧
    eligibleFloater allPlayers next st.2 = true ∧
    st.1 = some (floaterObjective allPlayers avg st.2) ∧
    (∀ j ∈ pre1, eligibleFloater allPlayers next j = true →
      floaterObjective allPlayers avg st.2 < floaterObjective allPlayers avg j) ∧
    (∀ j ∈ pre2, eligibleFloater allPlayers next j = true →
      floaterObjective allPlayers avg st.2 ≤ floaterObjective allPlayers avg j))

/-- A three-player score group (fresh players, neutral colour preference)
for the down-floater witness. -/
def witFloaterGroup : List Player :=
  [Player.ofData ⟨7, 1700, 1, 0, []⟩, Player.ofData ⟨8, 1600, 1, 0, []⟩,
   Player.ofData ⟨9, 1500, 1, 0, []⟩]

/-- The next score group for the down-floater witness. -/
def witFloaterNext : List Player := [Player.ofData ⟨10, 1400, 0, 0, []⟩]

/-- The (id, opponent-set) core of a player, all that rematch legality
depends on. -/
def coreOf (players : List Player) : List (Nat × List Nat) :=
  players.map (fun p => (p.id, p.opponents))

/-- Every member of `pool` carries the id and opponent set of some member of
`players` (the pairing stages only copy players and rewrite scratch flags). -/
def PoolFrom (pool players : List Player) : Prop :=
  ∀ x ∈ pool, (x.id, x.opponents) ∈ coreOf players

/-- Every emitted (non-bye) pairing arises from a successful `tryPair` of
two pool members: the caller records the callee as a legal (non-rematch)
opponent. -/
def PairProv1 (pool : List Player) (prs : List Pairing) : Prop :=
  ∀ pr ∈ prs, ∃ x y, x ∈ pool ∧ y ∈ pool ∧ x.canPairWith y = true ∧
    ((pr.white = x.id ∧ pr.black = some y.id) ∨
     (pr.white = y.id ∧ pr.black = some x.id))

/-- Invariant of the S1 pairing loop of `pairGroup`, stated for the
processed prefix `pre` of S1. -/
def LoopInv (S1full S2 pre : List Player) (st : LoopState) : Prop :=
  st.used.Nodup ∧
  (pairIds st.pairs).Perm st.used ∧
  (∀ x ∈ st.used, x ∈ ids S1full ∨ x ∈ ids S2) ∧
  (∀ u ∈ st.unpaired, ∃ p ∈ pre, u = { p with floated := true }) ∧
  (∀ u ∈ st.unpaired, u.id ∉ st.used) ∧
  (∀ u ∈ st.unpaired, ∀ v ∈ S1full, v.id ≠ u.id →
    v.id ∈ st.used ∨ u.opponents.contains v.id = true) ∧
  (∀ t ∈ pre, t.id ∈ st.used ∨ t.id ∈ ids st.unpaired) ∧
  (ids st.unpaired).Nodup ∧
  PairProv1 (S1full ++ S2) st.pairs

def joinOf (G : List (Rat × List Player)) (rs : List Rat) : List Player :=
  rs.flatMap (fun s => (G.lookup s).getD [])

def PairProvC (players : List Player) (prs : List Pairing) : Prop :=
  ∀ pr ∈ prs, ∀ b, pr.black = some b →
    ∃ x y : Player, (x.id, x.opponents) ∈ coreOf players ∧
      (y.id, y.opponents) ∈ coreOf players ∧ x.canPairWith y = true ∧
      ((pr.white = x.id ∧ b = y.id) ∨ (pr.white = y.id ∧ b = x.id))

/-! ## Helper lemmas -/

theorem ofData_colorPreference_eq (d : PlayerData) :
    (Player.ofData d).colorPreference =
      computeColorPreference (Player.ofData d).whiteCount (Player.ofData d).blackCount
        (Player.ofData d).lastColor (Player.ofData d).rounds := by
  simp [Player.ofData]

theorem computeColorPreference_abs_white (wc bc : Nat) (lc : Option Color)
    (rounds : List RoundHistory)
    (h1 : (wc : Int) - (bc : Int) < -1 ∨ lastTwoColor rounds = some Color.b)
    (h2 : ¬ ((wc : Int) - (bc : Int) > 1))
    (h3 : lastTwoColor rounds ≠ some Color.w) :
    computeColorPreference wc bc lc rounds = 2 := by
  unfold computeColorPreference
  rw [if_neg, if_pos]
  · exact h1
  · rintro (h | h)
    · exact h2 h
    · exact h3 h

/-! ## Claim theorems -/

/-- C5, counterexample: two players who both prefer black (`cp = -1`) with
equal summed colour penalties for either assignment; the higher-rated player
receives *white*, not the colour matching their preference (black), contrary
to the claim and to scenario S3 of the spec. -/
theorem C5_cex :
    cexHigh.colorPreference = -1 ∧ cexLow.colorPreference = -1 ∧
    cexLow.rating < cexHigh.rating ∧
    cexHigh.getColorPenalty Color.w + cexLow.getColorPenalty Color.b =
      cexHigh.getColorPenalty Color.b + cexLow.getColorPenalty Color.w ∧
    (cexHigh.getColorArrangement cexLow).white = cexHigh ∧
    (cexHigh.getColorArrangement cexLow).black = cexLow := by
  decide

/-- C5, amended: when the two colour assignments of a candidate pair have
equal summed penalty, `getColorArrangement` gives *white* to the player with
the higher rating (ties to the receiver of the method call), regardless of
either player's colour preference. -/
theorem C5_amended (p q : Player)
    (h : p.getColorPenalty Color.w + q.getColorPenalty Color.b =
         p.getColorPenalty Color.b + q.getColorPenalty Color.w) :
    (p.getColorArrangement q).white = (if q.rating ≤ p.rating then p else q) ∧
    (p.getColorArrangement q).black = (if q.rating ≤ p.rating then q else p) := by
  unfold Player.getColorArrangement
  simp only [h, lt_irrefl, if_false]
  split <;> simp

/-- C5, witness: the amended claim evaluated on the two concrete players of
the counterexample. -/
theorem C5_witness :
    (cexHigh.getColorPenalty Color.w + cexLow.getColorPenalty Color.b =
      cexHigh.getColorPenalty Color.b + cexLow.getColorPenalty Color.w) ∧
    ((cexHigh.getColorArrangement cexLow).white =
        (if cexLow.rating ≤ cexHigh.rating then cexHigh else cexLow) ∧
      (cexHigh.getColorArrangement cexLow).black =
        (if cexLow.rating ≤ cexHigh.rating then cexLow else cexHigh)) :=
  ⟨by decide, C5_amended cexHigh cexLow (by decide)⟩

/-- C6, counterexample: a player with colour difference `-2 < -1` whose last
two rounds were both white has colour preference `-2`, not the `+2` the
claim asserts — the `-2` branch (`color_diff > +1` or last two white) takes
precedence in `updateColorPreference`. -/
theorem C6_cex :
    ((cexColorPref.whiteCount : Int) - (cexColorPref.blackCount : Int) < -1) ∧
    lastTwoColor cexColorPref.rounds = some Color.w ∧
    cexColorPref.colorPreference = -2 := by
  decide

/-- C6, amended: the computed colour preference is `+2` (absolute white)
when `color_diff < -1` or the last two rounds were both black, *provided*
neither `color_diff > +1` nor `last_two_same_color = white` holds (those
conditions are checked first and give `-2`); in particular this holds when
`color_diff < -1` and the last two rounds had different colours. -/
theorem C6_amended (d : PlayerData)
    (h1 : ((Player.ofData d).whiteCount : Int) - ((Player.ofData d).blackCount : Int) < -1 ∨
          lastTwoColor (Player.ofData d).rounds = some Color.b)
    (h2 : ¬ (((Player.ofData d).whiteCount : Int) - ((Player.ofData d).blackCount : Int) > 1))
    (h3 : lastTwoColor (Player.ofData d).rounds ≠ some Color.w) :
    (Player.ofData d).colorPreference = 2 := by
  rw [ofData_colorPreference_eq]
  exact computeColorPreference_abs_white _ _ _ _ h1 h2 h3

/-- C6, witness: the amended claim evaluated on a player with three games as
black and one as white (`color_diff = -2`, last two rounds of different
colours). -/
theorem C6_witness :
    (((Player.ofData witColorPrefData).whiteCount : Int) -
        ((Player.ofData witColorPrefData).blackCount : Int) < -1 ∨
      lastTwoColor (Player.ofData witColorPrefData).rounds = some Color.b) ∧
    (Player.ofData witColorPrefData).colorPreference = 2 :=
  ⟨by decide, C6_amended witColorPrefData (by decide) (by decide) (by decide)⟩

/-- C8, counterexample: with exactly one active participant the engine does
not refuse to pair — it emits a bye-only round for that participant instead
of returning an error. -/
theorem C8_cex :
    generateSwissPairingsCore 1 [cexLone] (fun _ => true) =
      Except.ok [{ white := 9, black := none, boardNo := 1 }] := by
  decide

/-- C8, amended: the entry point refuses to pair only when there are *zero*
active participants (throwing `No active participants found`); with exactly
one active participant it emits a bye-only round for that participant. -/
theorem C8_amended (n : Nat) (rand : Nat → Bool) (p : Player) :
    generateSwissPairingsCore n [] rand =
      Except.error "No active participants found" ∧
    generateSwissPairingsCore 1 [p] rand =
      Except.ok [{ white := p.id, black := none, boardNo := 1 }] := by
  constructor
  · rfl
  · simp [generateSwissPairingsCore, generateRound1Pairings, stableSort, stableInsert]

theorem lookup_map_snd (s : List (Nat × PlayerData)) (f : PlayerData → PlayerData) (k : Nat) :
    List.lookup k (s.map (fun kv => (kv.1, f kv.2))) = (List.lookup k s).map f := by
  induction s with
  | nil => rfl
  | cons kv rest ih =>
    simp only [List.map_cons, List.lookup]
    by_cases h : k = kv.1
    · rw [show (k == kv.1) = true by simp [h]]
      rfl
    · rw [show (k == kv.1) = false by simp [h]]
      exact ih

theorem pairingBuchholz_fold (s : PlayerDataMap) (rounds : List RoundHistory) (init : Rat) :
    rounds.foldl
      (fun buch round =>
        if round.opponent ≠ 0 then
          match List.lookup round.opponent s with
          | some opp => buch + opp.score
          | none => buch
        else buch) init =
    init + (rounds.map (fun r =>
      if r.opponent ≠ 0 then ((List.lookup r.opponent s).map PlayerData.score).getD 0
      else 0)).sum := by
  induction rounds generalizing init with
  | nil => simp
  | cons r rest ih =>
    simp only [List.foldl_cons, List.map_cons, List.sum_cons]
    by_cases h : r.opponent ≠ 0
    · simp only [if_pos h]
      cases hl : List.lookup r.opponent s with
      | none => rw [ih]; simp [hl]
      | some opp => rw [ih]; simp [hl]; ring
    · simp only [if_neg h]
      rw [ih]
      simp

theorem pairingBuchholzOf_eq_sum (s : PlayerDataMap) (pd : PlayerData) :
    pairingBuchholzOf s pd = (pd.rounds.map (fun r =>
      if r.opponent ≠ 0 then ((List.lookup r.opponent s).map PlayerData.score).getD 0
      else 0)).sum := by
  unfold pairingBuchholzOf
  rw [pairingBuchholz_fold]
  simp

theorem lookup_buildPlayerData (participants : List (Nat × Int))
    (matchRows : List MatchData) (k : Nat) :
    List.lookup k (buildPlayerData participants matchRows) =
      (List.lookup k (buildPlayerDataFirst participants matchRows)).map
        (fun pd => { pd with
          buchholz :=
            pairingBuchholzOf (buildPlayerDataFirst participants matchRows) pd }) := by
  unfold buildPlayerData
  exact lookup_map_snd (buildPlayerDataFirst participants matchRows)
    (fun pd => { pd with
      buchholz :=
        pairingBuchholzOf (buildPlayerDataFirst participants matchRows) pd }) k

theorem lookup_score_buildPlayerData (participants : List (Nat × Int))
    (matchRows : List MatchData) (k : Nat) :
    (List.lookup k (buildPlayerData participants matchRows)).map PlayerData.score =
      (List.lookup k (buildPlayerDataFirst participants matchRows)).map
        PlayerData.score := by
  rw [lookup_buildPlayerData]
  cases List.lookup k (buildPlayerDataFirst participants matchRows) <;> rfl

theorem buildPlayerData_buchholz_eq (participants : List (Nat × Int))
    (matchRows : List MatchData) (kv : Nat × PlayerData)
    (h : kv ∈ buildPlayerData participants matchRows) :
    kv.2.buchholz = (kv.2.rounds.map (fun r =>
      if r.opponent ≠ 0 then
        ((List.lookup r.opponent (buildPlayerData participants matchRows)).map
          PlayerData.score).getD 0
      else 0)).sum := by
  unfold buildPlayerData at h
  obtain ⟨kv0, h0, rfl⟩ := List.mem_map.1 h
  have h1 : ((kv0.1, { kv0.2 with
      buchholz :=
        pairingBuchholzOf (buildPlayerDataFirst participants matchRows) kv0.2 }) :
        Nat × PlayerData).2.buchholz =
      pairingBuchholzOf (buildPlayerDataFirst participants matchRows) kv0.2 := rfl
  have h2 : ((kv0.1, { kv0.2 with
      buchholz :=
        pairingBuchholzOf (buildPlayerDataFirst participants matchRows) kv0.2 }) :
        Nat × PlayerData).2.rounds = kv0.2.rounds := rfl
  rw [h1, h2, pairingBuchholzOf_eq_sum]
  refine congrArg List.sum (List.map_congr_left (fun r _ => ?_))
  by_cases hop : r.opponent ≠ 0
  · simp only [if_pos hop, lookup_score_buildPlayerData]
  · simp [hop]

/-- C9: the Buchholz the pairing engine ranks bye candidates with is the
plain sum, over the player's recorded rounds with a real (non-zero, present)
opponent, of that opponent's *raw* cumulative score — bye rounds contribute
0 and neither the adjusted-score correction nor the virtual-opponent score
is applied; and on the two-participant tournament `buchRows` (participant 2
had a full-point bye, then lost to participant 1) the pairing engine gives
participant 1 the Buchholz 1 while the tiebreak module's `calculateBuchholz`
gives 1/2 — the two notions differ. -/
theorem C9_internal_buchholz :
    (∀ (participants : List (Nat × Int)) (matchRows : List MatchData),
      ∀ kv ∈ buildPlayerData participants matchRows,
        kv.2.buchholz = (kv.2.rounds.map (fun r =>
          if r.opponent ≠ 0 then
            ((List.lookup r.opponent (buildPlayerData participants matchRows)).map
              PlayerData.score).getD 0
          else 0)).sum) ∧
    ((List.lookup 1 (buildPlayerData [(1, 1500), (2, 1400)] buchRows)).map
        PlayerData.buchholz = some 1 ∧
      calculateBuchholz ((getStanding (buildStandings [1, 2] buchRows) 1).getD default)
          (buildStandings [1, 2] buchRows) = 1/2 ∧
      (1 : Rat) ≠ 1/2) := by
  constructor
  · exact buildPlayerData_buchholz_eq
  · refine ⟨by decide, by decide, by decide⟩

/-- C9, witness: the characterisation applied to the concrete two-player
tournament `buchRows`, at the map entry of participant 1. -/
theorem C9_witness :
    (buchEntry ∈ buildPlayerData [(1, 1500), (2, 1400)] buchRows) ∧
    buchEntry.2.buchholz = (buchEntry.2.rounds.map (fun r =>
      if r.opponent ≠ 0 then
        ((List.lookup r.opponent (buildPlayerData [(1, 1500), (2, 1400)] buchRows)).map
          PlayerData.score).getD 0
      else 0)).sum :=
  ⟨by decide,
    C9_internal_buchholz.1 [(1, 1500), (2, 1400)] buchRows buchEntry (by decide)⟩

/-- C3: on the tournament `h2hRows` — where participant 1 (P) had a bye in
round 1 and then beat participant 2 (Q) in round 2, their only mutual game —
`calculateHeadToHead P Q` is `0`, not positive as the claim requires: the
function reads `results[i]` at the position of Q inside `opponents`, but
`results` also contains the bye entry while `opponents` does not, so it reads
the bye instead of the win.  Q's own record still knows it lost
(`calculateHeadToHead Q P = -1`), so the pair is ordered inconsistently. -/
theorem C3_h2h_misaligned_by_bye :
    (h2hRows.filter (fun m =>
      (optId m.white_participant_id = 1 ∧ optId m.black_participant_id = 2) ∨
      (optId m.white_participant_id = 2 ∧ optId m.black_participant_id = 1))) =
      [mkRow (some 1) (some 2) 1 0 "white" 2] ∧
    ((getStanding h2hStandings 1).getD default).opponents = [2] ∧
    ((getStanding h2hStandings 1).getD default).results =
      [TBResult.bye, TBResult.win] ∧
    calculateHeadToHead ((getStanding h2hStandings 1).getD default)
      ((getStanding h2hStandings 2).getD default) = 0 ∧
    calculateHeadToHead ((getStanding h2hStandings 2).getD default)
      ((getStanding h2hStandings 1).getD default) = -1 := by
  decide

/-- C10: the comparator is not antisymmetric on standings produced by
`buildStandings`.  On `antisymRows`, participants 1 and 2 are tied on score;
`comparePlayersWithTiebreakers` with key `direct_encounter` returns `0` for
(1, 2) but `1` for (2, 1) — the results are not simultaneously zero and the
sign is not mirrored.  Root cause: `calculateHeadToHead` indexes `results`
by the opponent's position in `opponents`, which misaligns after a bye. -/
theorem C10_comparator_not_antisymmetric :
    ((getStanding antisymStandings 1).getD default).score =
      ((getStanding antisymStandings 2).getD default).score ∧
    comparePlayersWithTiebreakers ((getStanding antisymStandings 1).getD default)
      ((getStanding antisymStandings 2).getD default) "direct_encounter"
      antisymStandings = 0 ∧
    comparePlayersWithTiebreakers ((getStanding antisymStandings 2).getD default)
      ((getStanding antisymStandings 1).getD default) "direct_encounter"
      antisymStandings = 1 := by
  decide

/-- C1, counterexample: on two active players who already played each other,
`generateSubsequentRoundPairings` emits no pairing at all — both players are
silently omitted, so not every active participant appears in exactly one
pairing. -/
theorem C1_cex :
    generateSubsequentRoundPairings [cexRematchA, cexRematchB] = [] ∧
    pairIds (generateSubsequentRoundPairings [cexRematchA, cexRematchB]) = [] := by
  decide

/-- C2, counterexample: on four equal-score players who have all already
played each other (no legal rematch-free pairing exists),
`generateSubsequentRoundPairings` returns the plain empty pairing list — it
emits a round that omits all four players and signals no error; there is no
`PairingInfeasible` (or any other) error value anywhere in the engine. -/
theorem C2_cex :
    cexCompleteFour.length = 4 ∧
    generateSubsequentRoundPairings cexCompleteFour = [] := by
  decide

/-- C7, counterexample: a merged group of five players (all colour-neutral,
`cp = 0`) with a non-empty next group.  All three bottom-half candidates
(indices 2, 3, 4) are eligible and have the same colour term
`100·|cp + avg_cp_next| = 0`, so the spec's objective
`100·|cp + avg| + position_from_top` is minimised by the *highest* eligible
candidate (index 2), while the code's objective adds `length - i` (the
position from the *bottom*) and therefore floats the *lowest* candidate
(index 4, participant 5): the down-floater actually chosen is not the
spec's minimiser. -/
theorem C7_cex :
    eligibleFloater cexFloaterGroup cexFloaterNext 2 = true ∧
    eligibleFloater cexFloaterGroup cexFloaterNext 3 = true ∧
    eligibleFloater cexFloaterGroup cexFloaterNext 4 = true ∧
    (cexFloaterGroup.map Player.colorPreference = [0, 0, 0, 0, 0]) ∧
    chooseFloaterIdxSpec cexFloaterGroup 0 cexFloaterNext = 2 ∧
    chooseFloaterIdx cexFloaterGroup 0 cexFloaterNext = 4 ∧
    (pairGroup cexFloaterGroup [] cexFloaterNext []).unpaired.map Player.id = [5] ∧
    (cexFloaterGroup.getD 2 default).id = 3 := by
  decide

variable {α : Type _}

theorem stableInsert_perm (le : α → α → Bool) (x : α) (l : List α) :
    (stableInsert le x l).Perm (x :: l) := by
  induction l with
  | nil => exact List.Perm.refl _
  | cons y ys ih =>
    unfold stableInsert
    by_cases h : (le x y && !(le y x)) = true
    · rw [if_pos h]
    · rw [if_neg h]
      exact (ih.cons y).trans (List.Perm.swap x y ys)

theorem stableSort_perm_aux (le : α → α → Bool) (l acc : List α) :
    (l.foldl (fun a x => stableInsert le x a) acc).Perm (acc ++ l) := by
  induction l generalizing acc with
  | nil => simp
  | cons x xs ih =>
    simp only [List.foldl_cons]
    refine (ih (stableInsert le x acc)).trans ?_
    refine (((stableInsert_perm le x acc).append_right xs).trans ?_)
    exact List.perm_middle.symm

theorem stableSort_perm (le : α → α → Bool) (l : List α) :
    (stableSort le l).Perm l := by
  simpa using stableSort_perm_aux le l []

theorem stableInsert_sorted (le : α → α → Bool)
    (total : ∀ a b, le a b = true ∨ le b a = true)
    (htrans : ∀ a b c, le a b = true → le b c = true → le a c = true)
    (x : α) (l : List α) (h : l.Pairwise (fun a b => le a b = true)) :
    (stableInsert le x l).Pairwise (fun a b => le a b = true) := by
  induction l with
  | nil => simp [stableInsert]
  | cons y ys ih =>
    rw [List.pairwise_cons] at h
    obtain ⟨hy, hys⟩ := h
    unfold stableInsert
    by_cases hc : (le x y && !(le y x)) = true
    · rw [if_pos hc]
      simp only [Bool.and_eq_true, Bool.not_eq_true'] at hc
      refine List.Pairwise.cons ?_ (List.Pairwise.cons hy hys)
      intro z hz
      rcases List.mem_cons.1 hz with rfl | hz
      · exact hc.1
      · exact htrans x y z hc.1 (hy z hz)
    · rw [if_neg hc]
      have hyx : le y x = true := by
        rcases total x y with h1 | h1
        · by_cases h2 : le y x = true
          · exact h2
          · exact absurd (by simp [h1, h2]) hc
        · exact h1
      refine List.Pairwise.cons ?_ (ih hys)
      intro z hz
      have hz' := (stableInsert_perm le x ys).mem_iff.1 hz
      rcases List.mem_cons.1 hz' with rfl | hz'
      · exact hyx
      · exact hy z hz'

theorem stableSort_sorted_aux (le : α → α → Bool)
    (total : ∀ a b, le a b = true ∨ le b a = true)
    (htrans : ∀ a b c, le a b = true → le b c = true → le a c = true)
    (l : List α) :
    ∀ acc : List α, acc.Pairwise (fun a b => le a b = true) →
      (l.foldl (fun a x => stableInsert le x a) acc).Pairwise
        (fun a b => le a b = true) := by
  induction l with
  | nil => intro acc hacc; exact hacc
  | cons x xs ih =>
    intro acc hacc
    exact ih _ (stableInsert_sorted le total htrans x acc hacc)

theorem stableSort_sorted (le : α → α → Bool)
    (total : ∀ a b, le a b = true ∨ le b a = true)
    (htrans : ∀ a b c, le a b = true → le b c = true → le a c = true)
    (l : List α) :
    (stableSort le l).Pairwise (fun a b => le a b = true) :=
  stableSort_sorted_aux le total htrans l [] (List.Pairwise.nil)

theorem virtualScoresGo_cons (p : PlayerStanding) (n : Nat) (r : Rat)
    (e : Nat × Nat) (es : List (Nat × Nat)) :
    virtualScoresGo p n r (e :: es) =
      (if p.results.get? e.1 = some TBResult.bye then
        [r + (1 - p.matchScores.getD e.1 0) +
          (1 : Rat)/2 * ((n : Rat) - (e.2 : Rat))]
       else []) ++
      virtualScoresGo p n (r + p.matchScores.getD e.1 0) es := rfl

theorem virtualScoresGo_append (p : PlayerStanding) (n : Nat)
    (l1 l2 : List (Nat × Nat)) (r : Rat) :
    virtualScoresGo p n r (l1 ++ l2) =
      virtualScoresGo p n r l1 ++
        virtualScoresGo p n
          (r + (l1.map (fun e => p.matchScores.getD e.1 0)).sum) l2 := by
  induction l1 generalizing r with
  | nil => simp [virtualScoresGo]
  | cons e es ih =>
    simp only [List.cons_append, virtualScoresGo_cons, List.map_cons, List.sum_cons]
    rw [ih]
    simp [add_assoc]

theorem virtualScoresGo_length (p : PlayerStanding) (n : Nat)
    (l : List (Nat × Nat)) (r : Rat) :
    (virtualScoresGo p n r l).length =
      (l.filter (fun e =>
        decide (p.results.get? e.1 = some TBResult.bye))).length := by
  induction l generalizing r with
  | nil => rfl
  | cons e es ih =>
    rw [virtualScoresGo_cons]
    by_cases h : p.results.get? e.1 = some TBResult.bye
    · have h' : p.results[e.1]? = some TBResult.bye := by simpa using h
      simp [h', ih, List.filter_cons]
    · have h' : ¬ p.results[e.1]? = some TBResult.bye := by simpa using h
      simp [h', ih, List.filter_cons]

theorem filter_lt_eq_take (p : PlayerStanding) (i t : Nat)
    (l : List (Nat × Nat))
    (hperm : l.Perm p.roundNumbers.enum)
    (hsorted : l.Pairwise (fun a b => a.2 ≤ b.2))
    (hnd : p.roundNumbers.Nodup)
    (hi : i < p.roundNumbers.length)
    (ht : t < l.length)
    (hte : l[t] = (i, p.roundNumbers.getD i 0)) :
    l.filter (fun x => decide (x.2 < p.roundNumbers.getD i 0)) = l.take t := by
  have hnodl : l.Nodup := by
    refine hperm.nodup_iff.2 ?_
    have h0 : (p.roundNumbers.enum.map Prod.fst).Nodup := by
      rw [List.enum_map_fst]; exact List.nodup_range _
    exact h0.of_map _
  -- any element of l with second component equal to rn i is the pair (i, rn i)
  have hsnd : ∀ x ∈ l, x.2 = p.roundNumbers.getD i 0 →
      x = (i, p.roundNumbers.getD i 0) := by
    rintro ⟨j, v⟩ hx hv
    have hx' : (j, v) ∈ p.roundNumbers.enum := hperm.mem_iff.1 hx
    have hj : p.roundNumbers[j]? = some v := List.mk_mem_enum_iff_getElem?.1 hx'

    have hjlt : j < p.roundNumbers.length := by
      by_contra hc
      rw [List.getElem?_eq_none (Nat.le_of_not_lt hc)] at hj
      exact Option.noConfusion hj
    have hv' : p.roundNumbers[j] = v := by
      rw [List.getElem?_eq_getElem hjlt] at hj
      exact Option.some.inj hj
    have heq : p.roundNumbers[j] = p.roundNumbers[i] := by
      rw [hv']
      simpa [List.getD_eq_getElem?_getD, List.getElem?_eq_getElem hi] using hv
    have hji : j = i := (List.Nodup.getElem_inj_iff hnd).1 heq
    subst hji
    exact congrArg (Prod.mk j) hv
  have hdec := List.take_append_drop t l
  have hdrop : l.drop t = (i, p.roundNumbers.getD i 0) :: l.drop (t + 1) := by
    rw [List.drop_eq_getElem_cons ht, hte]
  have hpw : l.Pairwise (fun a b => a.2 ≤ b.2) := hsorted
  rw [← hdec, hdrop] at hpw
  rw [List.pairwise_append] at hpw
  obtain ⟨hpw1, hpw2, hcross⟩ := hpw
  have hmem_e : (i, p.roundNumbers.getD i 0) ∉ l.take t := by
    intro hmem
    have hnd2 := hnodl
    rw [← hdec, hdrop] at hnd2
    rw [List.nodup_append] at hnd2
    exact absurd (List.mem_cons_self _ _) (hnd2.2.2 hmem)
  conv_lhs => rw [← hdec, hdrop]
  rw [List.filter_append]
  have htake_all : ∀ x ∈ l.take t, x.2 < p.roundNumbers.getD i 0 := by
    intro x hx
    have hle : x.2 ≤ p.roundNumbers.getD i 0 :=
      hcross x hx _ (List.mem_cons_self _ _)
    rcases Nat.lt_or_ge x.2 (p.roundNumbers.getD i 0) with h | h
    · exact h
    · have hxe : x = (i, p.roundNumbers.getD i 0) :=
        hsnd x (by rw [← hdec]; exact List.mem_append_left _ hx) (Nat.le_antisymm hle h)
      exact absurd (hxe ▸ hx) hmem_e
  have h1 : (l.take t).filter (fun x => decide (x.2 < p.roundNumbers.getD i 0)) =
      l.take t :=
    List.filter_eq_self.2 (fun x hx => by simpa using htake_all x hx)
  have h2 : ((i, p.roundNumbers.getD i 0) :: l.drop (t + 1)).filter
      (fun x => decide (x.2 < p.roundNumbers.getD i 0)) = [] := by
    rw [List.filter_eq_nil_iff]
    intro x hx
    rcases List.mem_cons.1 hx with rfl | hx
    · simp
    · have hge : p.roundNumbers.getD i 0 ≤ x.2 :=
        List.rel_of_pairwise_cons hpw2 hx
      simp only [decide_eq_true_eq]
      exact Nat.not_lt.2 hge
  rw [h1, h2, List.append_nil]

theorem virtualScores_formula (p : PlayerStanding) (n : Nat)
    (hnd : p.roundNumbers.Nodup)
    (i : Nat) (hi : i < p.roundNumbers.length)
    (hbye : p.results.get? i = some TBResult.bye) :
    (virtualScores p n).get? (byePosition p i) =
      some (scoreBeforeRound p i + (1 - p.matchScores.getD i 0) +
        (1 : Rat)/2 * ((n : Rat) - (p.roundNumbers.getD i 0 : Rat))) := by
  set rni := p.roundNumbers.getD i 0 with hrni
  set le : (Nat × Nat) → (Nat × Nat) → Bool := fun a b => decide (a.2 ≤ b.2) with hle
  set l := stableSort le p.roundNumbers.enum with hl
  have hperm : l.Perm p.roundNumbers.enum := stableSort_perm le _
  have hsorted : l.Pairwise (fun a b => a.2 ≤ b.2) := by
    have h0 := stableSort_sorted le
      (fun a b => by rcases Nat.le_total a.2 b.2 with h | h <;> simp [hle, h])
      (fun a b c h1 h2 => by simp [hle] at h1 h2 ⊢; omega)
      p.roundNumbers.enum
    exact h0.imp (fun h => by simpa [hle] using h)
  have henum : (i, rni) ∈ p.roundNumbers.enum := by
    rw [List.mk_mem_enum_iff_getElem?]
    rw [List.getElem?_eq_getElem hi]
    simp [hrni, List.getD_eq_getElem?_getD, List.getElem?_eq_getElem hi]
  have hel : (i, rni) ∈ l := hperm.mem_iff.2 henum
  obtain ⟨t, ht, hte⟩ := List.getElem_of_mem hel
  have hfilter := filter_lt_eq_take p i t l hperm hsorted hnd hi ht hte
  have hdrop : l.drop t = (i, rni) :: l.drop (t + 1) := by
    rw [List.drop_eq_getElem_cons ht, hte]
  have hsplit : l = l.take t ++ ((i, rni) :: l.drop (t + 1)) := by
    conv_lhs => rw [← List.take_append_drop t l]
    rw [hdrop]
  set S : Rat := ((l.take t).map (fun e => p.matchScores.getD e.1 0)).sum with hS
  have hgo : virtualScores p n =
      virtualScoresGo p n 0 (l.take t) ++
        ((0 + S + (1 - p.matchScores.getD i 0) +
          (1 : Rat)/2 * ((n : Rat) - (rni : Rat))) ::
          virtualScoresGo p n (0 + S + p.matchScores.getD i 0) (l.drop (t + 1))) := by
    have h1 : virtualScores p n = virtualScoresGo p n 0 l := by
      rw [hl, hle]; rfl
    rw [h1, congrArg (virtualScoresGo p n 0) hsplit,
      virtualScoresGo_append, virtualScoresGo_cons, if_pos hbye]
    rfl
  have hpos : byePosition p i = (virtualScoresGo p n 0 (l.take t)).length := by
    rw [virtualScoresGo_length, ← hfilter, List.filter_filter,
      ((hperm.filter _).length_eq)]
    unfold byePosition
    refine congrArg List.length (List.filter_congr fun x hx => ?_)
    rw [← hrni]
    simp [Bool.and_comm]
  have hsum : scoreBeforeRound p i = S := by
    unfold scoreBeforeRound
    rw [hS, ← hfilter, ← hrni]
    exact ((hperm.filter (fun e => decide (e.2 < rni))).map
      (fun e => p.matchScores.getD e.1 0)).sum_eq.symm
  rw [hgo, hpos]
  rw [List.get?_eq_getElem?]
  rw [List.getElem?_append_right (Nat.le_refl _)]
  simp [hsum]

theorem virtualScoresGo_congr (p q : PlayerStanding) (n : Nat)
    (hres : p.results = q.results) (hms : p.matchScores = q.matchScores) :
    ∀ (l : List (Nat × Nat)) (r : Rat),
      virtualScoresGo p n r l = virtualScoresGo q n r l := by
  intro l
  induction l with
  | nil => intro r; rfl
  | cons e es ih =>
    intro r
    rw [virtualScoresGo_cons, virtualScoresGo_cons, hres, hms, ih]

theorem virtualScores_congr (p q : PlayerStanding) (n : Nat)
    (hrn : p.roundNumbers = q.roundNumbers) (hres : p.results = q.results)
    (hms : p.matchScores = q.matchScores) :
    virtualScores p n = virtualScores q n := by
  unfold virtualScores
  rw [hrn, virtualScoresGo_congr p q n hres hms]

theorem buildStandings_stores_virtualScores (participants : List Nat)
    (matchRows : List MatchData) (kv : Nat × PlayerStanding)
    (h : kv ∈ buildStandings participants matchRows) :
    kv.2.virtualOpponentScores = virtualScores kv.2 (totalRoundsOf matchRows) := by
  unfold buildStandings at h
  obtain ⟨kv0, h0, rfl⟩ := List.mem_map.1 h
  show virtualScores kv0.2 _ = _
  exact virtualScores_congr kv0.2
    { kv0.2 with virtualOpponentScores :=
        virtualScores kv0.2 (totalRoundsOf matchRows) }
    (totalRoundsOf matchRows) rfl rfl rfl

/-- C4: (a) the virtual-opponent scores stored by `buildStandings` are
exactly `virtualScores` of the player's per-round data with
`n = totalRoundsOf matchRows`, the highest round number among the matches
supplied; and (b) for every player whose recorded round numbers are
pairwise distinct, the stored value for the bye at index `i` (the
`byePosition`-th entry, i.e. counting earlier byes) equals
`S_before_round + (1 - SfPR) + 0.5 * (n - R)`, where `S_before_round`
(`scoreBeforeRound`) is the accumulated real score in all rounds with a
smaller round number, `SfPR` is the points actually awarded for the bye and
`R` is the bye's round number. -/
theorem C4_virtual_opponent_formula :
    (∀ (participants : List Nat) (matchRows : List MatchData),
      ∀ kv ∈ buildStandings participants matchRows,
        kv.2.virtualOpponentScores = virtualScores kv.2 (totalRoundsOf matchRows)) ∧
    (∀ (p : PlayerStanding) (n : Nat), p.roundNumbers.Nodup →
      ∀ i, i < p.roundNumbers.length →
        p.results.get? i = some TBResult.bye →
        (virtualScores p n).get? (byePosition p i) =
          some (scoreBeforeRound p i + (1 - p.matchScores.getD i 0) +
            (1 : Rat)/2 * ((n : Rat) - (p.roundNumbers.getD i 0 : Rat)))) :=
  ⟨buildStandings_stores_virtualScores,
   fun p n hnd i hi hbye => virtualScores_formula p n hnd i hi hbye⟩

/-- C4, witness: the spec scenario S4 — participant 1 wins rounds 1 and 2
(1 point each) and has a full-point bye in round 3 of a tournament played
through round 3: the stored virtual score is
`2 + (1 - 1) + 0.5 * (3 - 3) = 2`. -/
theorem C4_witness :
    ((getStanding (buildStandings [1, 2, 3] svonRows) 1).getD
        default).roundNumbers.Nodup ∧
    2 < ((getStanding (buildStandings [1, 2, 3] svonRows) 1).getD
        default).roundNumbers.length ∧
    ((getStanding (buildStandings [1, 2, 3] svonRows) 1).getD
        default).results.get? 2 = some TBResult.bye ∧
    (virtualScores ((getStanding (buildStandings [1, 2, 3] svonRows) 1).getD default)
        (totalRoundsOf svonRows)).get?
      (byePosition ((getStanding (buildStandings [1, 2, 3] svonRows) 1).getD default) 2) =
    some (scoreBeforeRound
        ((getStanding (buildStandings [1, 2, 3] svonRows) 1).getD default) 2 +
      (1 - ((getStanding (buildStandings [1, 2, 3] svonRows) 1).getD
        default).matchScores.getD 2 0) +
      (1 : Rat)/2 * (((totalRoundsOf svonRows : Nat) : Rat) -
        (((getStanding (buildStandings [1, 2, 3] svonRows) 1).getD
          default).roundNumbers.getD 2 0 : Rat))) :=
  ⟨by decide, by decide, by decide,
    C4_virtual_opponent_formula.2
      ((getStanding (buildStandings [1, 2, 3] svonRows) 1).getD default)
      (totalRoundsOf svonRows) (by decide) 2 (by decide) (by decide)⟩

theorem drop_range_eq (len d : Nat) :
    (List.range len).drop d = List.range' d (len - d) := by
  apply List.ext_getElem
  · simp
  · intro i h1 h2
    simp [List.getElem_drop, List.getElem_range, List.getElem_range']

theorem mem_drop_range (len d j : Nat) :
    j ∈ (List.range len).drop d ↔ d ≤ j ∧ j < len := by
  rw [drop_range_eq len d, List.mem_range'_1]
  omega

theorem pairwise_gt_idxs (len d : Nat) :
    (((List.range len).drop d).reverse).Pairwise (fun a b => b < a) := by
  rw [List.pairwise_reverse]
  exact (List.pairwise_lt_range len).sublist (List.drop_sublist d _)

theorem floaterStep_inv (allPlayers next : List Player) (avg : Rat) (d0 : Nat)
    (pre : List Nat) (st : Option Rat × Nat) (k : Nat)
    (h : FloaterInv allPlayers next avg d0 pre st) :
    FloaterInv allPlayers next avg d0 (pre ++ [k])
      (floaterStep allPlayers next avg st k) := by
  unfold floaterStep
  by_cases he : eligibleFloater allPlayers next k = true
  · rw [if_pos he]
    rcases h with ⟨hst, hall⟩ | ⟨pre1, pre2, hpre, helig, hval, h1, h2⟩
    · rw [hst]
      right
      exact ⟨pre, [], by simp, he, rfl, fun j hj hje => absurd hje (by simp [hall j hj]),
        by simp⟩
    · rw [hval]
      show FloaterInv allPlayers next avg d0 (pre ++ [k])
        (if floaterObjective allPlayers avg k < floaterObjective allPlayers avg st.2
          then (some (floaterObjective allPlayers avg k), k) else st)
      by_cases hlt : floaterObjective allPlayers avg k <
          floaterObjective allPlayers avg st.2
      · rw [if_pos hlt]
        right
        refine ⟨pre1 ++ st.2 :: pre2, [], by simp [hpre], he, rfl, ?_, by simp⟩
        intro j hj hje
        rcases List.mem_append.1 hj with hj | hj
        · exact lt_trans hlt (h1 j hj hje)
        · rcases List.mem_cons.1 hj with rfl | hj
          · exact hlt
          · exact lt_of_lt_of_le hlt (h2 j hj hje)
      · rw [if_neg hlt]
        right
        refine ⟨pre1, pre2 ++ [k], by simp [hpre], helig, hval, h1, ?_⟩
        intro j hj hje
        rcases List.mem_append.1 hj with hj | hj
        · exact h2 j hj hje
        · rcases List.mem_singleton.1 hj with rfl
          exact le_of_not_lt hlt
  · rw [if_neg he]
    rcases h with ⟨hst, hall⟩ | ⟨pre1, pre2, hpre, helig, hval, h1, h2⟩
    · left
      refine ⟨hst, ?_⟩
      intro j hj
      rcases List.mem_append.1 hj with hj | hj
      · exact hall j hj
      · rcases List.mem_singleton.1 hj with rfl
        exact Bool.eq_false_iff.2 he
    · right
      refine ⟨pre1, pre2 ++ [k], by simp [hpre], helig, hval, h1, ?_⟩
      intro j hj hje
      rcases List.mem_append.1 hj with hj | hj
      · exact h2 j hj hje
      · rcases List.mem_singleton.1 hj with rfl
        exact absurd hje he

theorem foldl_floaterStep_inv (allPlayers next : List Player) (avg : Rat) (d0 : Nat) :
    ∀ (is : List Nat) (pre : List Nat) (st : Option Rat × Nat),
      FloaterInv allPlayers next avg d0 pre st →
      FloaterInv allPlayers next avg d0 (pre ++ is)
        (is.foldl (floaterStep allPlayers next avg) st) := by
  intro is
  induction is with
  | nil => intro pre st h; simpa using h
  | cons k ks ih =>
    intro pre st h
    have h1 := floaterStep_inv allPlayers next avg d0 pre st k h
    have h2 := ih (pre ++ [k]) _ h1
    simpa using h2

theorem chooseFloaterIdx_spec (allPlayers next : List Player) (avg : Rat)
    (hex : ∃ j, allPlayers.length / 2 ≤ j ∧ j < allPlayers.length ∧
      eligibleFloater allPlayers next j = true) :
    allPlayers.length / 2 ≤ chooseFloaterIdx allPlayers avg next ∧
    chooseFloaterIdx allPlayers avg next < allPlayers.length ∧
    eligibleFloater allPlayers next (chooseFloaterIdx allPlayers avg next) = true ∧
    (∀ j, allPlayers.length / 2 ≤ j → j < allPlayers.length →
      eligibleFloater allPlayers next j = true →
      floaterObjective allPlayers avg (chooseFloaterIdx allPlayers avg next) ≤
        floaterObjective allPlayers avg j) ∧
    (∀ j, allPlayers.length / 2 ≤ j → j < allPlayers.length →
      eligibleFloater allPlayers next j = true →
      floaterObjective allPlayers avg j =
        floaterObjective allPlayers avg (chooseFloaterIdx allPlayers avg next) →
      j ≤ chooseFloaterIdx allPlayers avg next) := by
  set len := allPlayers.length with hlen
  set idxs := ((List.range len).drop (len / 2)).reverse with hidxs
  have hmem : ∀ j, j ∈ idxs ↔ len / 2 ≤ j ∧ j < len := by
    intro j
    rw [hidxs, List.mem_reverse, mem_drop_range]
  have hinv := foldl_floaterStep_inv allPlayers next avg (len - 1) idxs []
    ((none : Option Rat), len - 1) (Or.inl ⟨rfl, by simp⟩)
  have hchoose : chooseFloaterIdx allPlayers avg next =
      (idxs.foldl (floaterStep allPlayers next avg) ((none : Option Rat), len - 1)).2 :=
    rfl
  rcases hinv with ⟨hst, hall⟩ | ⟨pre1, pre2, hpre, helig, hval, h1, h2⟩
  · obtain ⟨j, hj1, hj2, hj3⟩ := hex
    have : j ∈ ([] : List Nat) ++ idxs := by
      simpa using (hmem j).2 ⟨hj1, hj2⟩
    rw [hall j this] at hj3
    exact Bool.noConfusion hj3
  · rw [List.nil_append] at hpre
    set st := idxs.foldl (floaterStep allPlayers next avg)
      ((none : Option Rat), len - 1) with hstdef
    have hself : st.2 ∈ idxs := by
      rw [hpre]
      exact List.mem_append_right _ (List.mem_cons_self _ _)
    have hbounds := (hmem st.2).1 hself
    have hpw : idxs.Pairwise (fun a b => b < a) := pairwise_gt_idxs len (len / 2)
    rw [hpre, List.pairwise_append] at hpw
    refine ⟨hbounds.1, hbounds.2, helig, ?_, ?_⟩
    · intro j hj1 hj2 hj3
      have hjmem : j ∈ idxs := (hmem j).2 ⟨hj1, hj2⟩
      rw [hpre] at hjmem
      rcases List.mem_append.1 hjmem with hj | hj
      · exact le_of_lt (h1 j hj hj3)
      · rcases List.mem_cons.1 hj with rfl | hj
        · exact le_refl _
        · exact h2 j hj hj3
    · intro j hj1 hj2 hj3 hjeq
      have hjmem : j ∈ idxs := (hmem j).2 ⟨hj1, hj2⟩
      rw [hpre] at hjmem
      rcases List.mem_append.1 hjmem with hj | hj
      · exact absurd hjeq (ne_of_gt (h1 j hj hj3))
      · rcases List.mem_cons.1 hj with rfl | hj
        · exact le_refl _
        · exact le_of_lt (List.rel_of_pairwise_cons hpw.2.1 hj)

/-- C7, amended: when the merged group `U` is odd and a next group exists,
the down-floater chosen (the head of `pairGroup`'s `unpaired` list) is the
bottom-half candidate, able to pair with at least one member of the next
group, that minimises `100·|cp + avg_cp_next| + (position_from_bottom)`
(the code's term is `length - i`, the 1-based position from the bottom, not
the position from the top); among candidates of equal objective the
lowest-ranked one (largest index) is chosen. -/
theorem C7_amended (group floaters nextGroupPlayers : List Player)
    (pairedIds : List Nat)
    (hodd : (mergedGroup group floaters pairedIds).length % 2 = 1)
    (hnext : nextGroupPlayers ≠ [])
    (hex : ∃ j, (mergedGroup group floaters pairedIds).length / 2 ≤ j ∧
      j < (mergedGroup group floaters pairedIds).length ∧
      eligibleFloater (mergedGroup group floaters pairedIds) nextGroupPlayers j = true) :
    (pairGroup group floaters nextGroupPlayers pairedIds).unpaired.head? =
      some { (mergedGroup group floaters pairedIds).getD
              (chooseFloaterIdx (mergedGroup group floaters pairedIds)
                (avgNextPrefOf nextGroupPlayers) nextGroupPlayers) default
             with floated := true } ∧
    (mergedGroup group floaters pairedIds).length / 2 ≤
      chooseFloaterIdx (mergedGroup group floaters pairedIds)
        (avgNextPrefOf nextGroupPlayers) nextGroupPlayers ∧
    chooseFloaterIdx (mergedGroup group floaters pairedIds)
      (avgNextPrefOf nextGroupPlayers) nextGroupPlayers <
      (mergedGroup group floaters pairedIds).length ∧
    eligibleFloater (mergedGroup group floaters pairedIds) nextGroupPlayers
      (chooseFloaterIdx (mergedGroup group floaters pairedIds)
        (avgNextPrefOf nextGroupPlayers) nextGroupPlayers) = true ∧
    (∀ j, (mergedGroup group floaters pairedIds).length / 2 ≤ j →
      j < (mergedGroup group floaters pairedIds).length →
      eligibleFloater (mergedGroup group floaters pairedIds) nextGroupPlayers j = true →
      floaterObjective (mergedGroup group floaters pairedIds)
        (avgNextPrefOf nextGroupPlayers)
        (chooseFloaterIdx (mergedGroup group floaters pairedIds)
          (avgNextPrefOf nextGroupPlayers) nextGroupPlayers) ≤
      floaterObjective (mergedGroup group floaters pairedIds)
        (avgNextPrefOf nextGroupPlayers) j) ∧
    (∀ j, (mergedGroup group floaters pairedIds).length / 2 ≤ j →
      j < (mergedGroup group floaters pairedIds).length →
      eligibleFloater (mergedGroup group floaters pairedIds) nextGroupPlayers j = true →
      floaterObjective (mergedGroup group floaters pairedIds)
        (avgNextPrefOf nextGroupPlayers) j =
        floaterObjective (mergedGroup group floaters pairedIds)
          (avgNextPrefOf nextGroupPlayers)
          (chooseFloaterIdx (mergedGroup group floaters pairedIds)
            (avgNextPrefOf nextGroupPlayers) nextGroupPlayers) →
      j ≤ chooseFloaterIdx (mergedGroup group floaters pairedIds)
        (avgNextPrefOf nextGroupPlayers) nextGroupPlayers) := by
  have hspec := chooseFloaterIdx_spec (mergedGroup group floaters pairedIds)
    nextGroupPlayers (avgNextPrefOf nextGroupPlayers) hex
  refine ⟨?_, hspec.1, hspec.2.1, hspec.2.2.1, hspec.2.2.2.1, hspec.2.2.2.2⟩
  unfold pairGroup
  have hcond : ((mergedGroup group floaters pairedIds).length % 2 == 1 &&
      nextGroupPlayers.length != 0) = true := by
    have : nextGroupPlayers.length ≠ 0 := by
      intro hc
      exact hnext (List.length_eq_zero.1 hc)
    simp [hodd, this]
  rw [if_pos hcond]
  rfl

/-- C7, witness: the amended down-floater rule applied to a concrete merged
group of three fresh players with a one-player next group. -/
theorem C7_witness :
    ((mergedGroup witFloaterGroup [] []).length % 2 = 1) ∧
    witFloaterNext ≠ [] ∧
    (∃ j, (mergedGroup witFloaterGroup [] []).length / 2 ≤ j ∧
      j < (mergedGroup witFloaterGroup [] []).length ∧
      eligibleFloater (mergedGroup witFloaterGroup [] []) witFloaterNext j = true) ∧
    (pairGroup witFloaterGroup [] witFloaterNext []).unpaired.head? =
      some { (mergedGroup witFloaterGroup [] []).getD
              (chooseFloaterIdx (mergedGroup witFloaterGroup [] [])
                (avgNextPrefOf witFloaterNext) witFloaterNext) default
             with floated := true } :=
  ⟨by decide, by decide, ⟨2, by decide⟩,
   (C7_amended witFloaterGroup [] witFloaterNext [] (by decide) (by decide)
     ⟨2, by decide⟩).1⟩

theorem getColorArrangement_cases (p q : Player) :
    ((p.getColorArrangement q).white = p ∧ (p.getColorArrangement q).black = q) ∨
    ((p.getColorArrangement q).white = q ∧ (p.getColorArrangement q).black = p) := by
  simp only [Player.getColorArrangement]
  by_cases h1 : p.getColorPenalty Color.w + q.getColorPenalty Color.b <
      p.getColorPenalty Color.b + q.getColorPenalty Color.w
  · simp [h1]
  · by_cases h2 : p.getColorPenalty Color.b + q.getColorPenalty Color.w <
        p.getColorPenalty Color.w + q.getColorPenalty Color.b
    · simp [h1, h2]
    · by_cases h3 : q.rating ≤ p.rating
      · simp [h1, h2, h3]
      · simp [h1, h2, h3]

theorem tryPair_some (p q : Player) (arr : Arrangement)
    (h : tryPair p q = some arr) :
    p.canPairWith q = true ∧ arr = p.getColorArrangement q := by
  unfold tryPair at h
  by_cases hc : p.canPairWith q = true
  · rw [if_pos hc] at h
    exact ⟨hc, (Option.some.inj h).symm⟩
  · rw [if_neg hc] at h
    exact Option.noConfusion h

theorem tryPair_none (p q : Player) (h : tryPair p q = none) :
    p.canPairWith q = false := by
  unfold tryPair at h
  by_cases hc : p.canPairWith q = true
  · rw [if_pos hc] at h
    exact Option.noConfusion h
  · rw [if_neg hc] at h
    exact Bool.eq_false_iff.2 hc

theorem pairIds_append (a b : List Pairing) :
    pairIds (a ++ b) = pairIds a ++ pairIds b := by
  unfold pairIds
  rw [List.flatMap_append]

theorem pairIds_pairingOf (arr : Arrangement) :
    pairIds [pairingOf arr] = [arr.white.id, arr.black.id] := rfl

theorem pairIds_arrangement_perm (p q : Player) (arr : Arrangement)
    (h : tryPair p q = some arr) :
    (pairIds [pairingOf arr]).Perm [p.id, q.id] := by
  obtain ⟨_, rfl⟩ := tryPair_some p q arr h
  rw [pairIds_pairingOf]
  rcases getColorArrangement_cases p q with ⟨hw, hb⟩ | ⟨hw, hb⟩
  · rw [hw, hb]
  · rw [hw, hb]
    exact List.Perm.swap _ _ _

theorem nodup_map_inj_on {α β : Type _} (f : α → β) (l : List α)
    (h : (l.map f).Nodup) :
    ∀ a ∈ l, ∀ b ∈ l, f a = f b → a = b := by
  intro a ha b hb hfab
  exact List.inj_on_of_nodup_map h ha hb hfab

theorem findBestS2_fold_spec (top : Player) (used : List Nat) :
    ∀ (l : List Player) (acc : Option (Arrangement × Player))
      (arr : Arrangement) (bottom : Player),
      l.foldl
        (fun best bottom =>
          if used.contains bottom.id then best
          else
            match tryPair top bottom with
            | none => best
            | some arr =>
              match best with
              | none => some (arr, bottom)
              | some ba => if arr.penalty < ba.1.penalty then some (arr, bottom)
                           else best) acc = some (arr, bottom) →
      (bottom ∈ l ∧ used.contains bottom.id = false ∧
        tryPair top bottom = some arr) ∨ acc = some (arr, bottom) := by
  intro l
  induction l with
  | nil =>
    intro acc arr bottom h
    exact Or.inr h
  | cons s ss ih =>
    intro acc arr bottom h
    simp only [List.foldl_cons] at h
    by_cases hu : used.contains s.id
    · rw [if_pos hu] at h
      rcases ih acc arr bottom h with ⟨h1, h2, h3⟩ | hacc
      · exact Or.inl ⟨List.mem_cons_of_mem s h1, h2, h3⟩
      · exact Or.inr hacc
    · rw [if_neg hu] at h
      cases htp : tryPair top s with
      | none =>
        rw [htp] at h
        rcases ih acc arr bottom h with ⟨h1, h2, h3⟩ | hacc
        · exact Or.inl ⟨List.mem_cons_of_mem s h1, h2, h3⟩
        · exact Or.inr hacc
      | some a0 =>
        rw [htp] at h
        cases hacccase : acc with
        | none =>
          subst hacccase
          rcases ih (some (a0, s)) arr bottom h with ⟨h1, h2, h3⟩ | hacc
          · exact Or.inl ⟨List.mem_cons_of_mem s h1, h2, h3⟩
          · obtain ⟨ha, hb⟩ := Prod.mk.inj (Option.some.inj hacc)
            subst ha; subst hb
            exact Or.inl ⟨List.mem_cons_self s ss, Bool.eq_false_iff.2 hu, htp⟩
        | some ba =>
          subst hacccase
          have h' : ss.foldl
              (fun best bottom =>
                if used.contains bottom.id then best
                else
                  match tryPair top bottom with
                  | none => best
                  | some arr =>
                    match best with
                    | none => some (arr, bottom)
                    | some ba => if arr.penalty < ba.1.penalty then some (arr, bottom)
                                 else best)
              (if a0.penalty < ba.1.penalty then some (a0, s) else some ba) =
              some (arr, bottom) := h
          by_cases hpen : a0.penalty < ba.1.penalty
          · rw [if_pos hpen] at h'
            rcases ih (some (a0, s)) arr bottom h' with ⟨h1, h2, h3⟩ | hacc
            · exact Or.inl ⟨List.mem_cons_of_mem s h1, h2, h3⟩
            · obtain ⟨ha, hb⟩ := Prod.mk.inj (Option.some.inj hacc)
              subst ha; subst hb
              exact Or.inl ⟨List.mem_cons_self s ss, Bool.eq_false_iff.2 hu, htp⟩
          · rw [if_neg hpen] at h'
            rcases ih (some ba) arr bottom h' with ⟨h1, h2, h3⟩ | hacc
            · exact Or.inl ⟨List.mem_cons_of_mem s h1, h2, h3⟩
            · exact Or.inr hacc

theorem findBestS2_some (top : Player) (S2 : List Player) (used : List Nat)
    (arr : Arrangement) (bottom : Player)
    (h : findBestS2 top S2 used = some (arr, bottom)) :
    bottom ∈ S2 ∧ used.contains bottom.id = false ∧ tryPair top bottom = some arr := by
  unfold findBestS2 at h
  rcases findBestS2_fold_spec top used S2 none arr bottom h with hl | hr
  · exact hl
  · exact Option.noConfusion hr

theorem findTransposition_some (top : Player) (S1 : List Player) (used : List Nat)
    (arr : Arrangement) (other : Player)
    (h : findTransposition top S1 used = some (arr, other)) :
    other ∈ S1 ∧ other.id ≠ top.id ∧ used.contains other.id = false ∧
      tryPair top other = some arr := by
  unfold findTransposition at h
  cases hf : S1.find? (fun other =>
      other.id != top.id && !(used.contains other.id) && (tryPair top other).isSome) with
  | none => rw [hf] at h; exact Option.noConfusion h
  | some o =>
    rw [hf] at h
    have hpred := List.find?_some hf
    have hmem := List.mem_of_find?_eq_some hf
    simp only [Bool.and_eq_true, bne_iff_ne, Bool.not_eq_true'] at hpred
    obtain ⟨⟨hne, hnu⟩, hsome⟩ := hpred
    have h2 : (tryPair top o).map (fun arr => (arr, o)) = some (arr, other) := h
    cases htp : tryPair top o with
    | none => rw [htp] at hsome; exact Bool.noConfusion hsome
    | some a0 =>
      rw [htp] at h2
      simp only [Option.map_some'] at h2
      obtain ⟨ha, hb⟩ := Prod.mk.inj (Option.some.inj h2)
      subst ha
      subst hb
      exact ⟨hmem, hne, hnu, htp⟩

theorem findTransposition_none (top : Player) (S1 : List Player) (used : List Nat)
    (h : findTransposition top S1 used = none) :
    ∀ other ∈ S1, other.id ≠ top.id → used.contains other.id = false →
      tryPair top other = none := by
  unfold findTransposition at h
  cases hf : S1.find? (fun other =>
      other.id != top.id && !(used.contains other.id) && (tryPair top other).isSome) with
  | some o =>
    have hpred := List.find?_some hf
    simp only [Bool.and_eq_true, bne_iff_ne, Bool.not_eq_true'] at hpred
    obtain ⟨⟨hne, hnu⟩, hsome⟩ := hpred
    rw [hf] at h
    have h2 : (tryPair top o).map (fun arr => (arr, o)) = none := h
    cases htp : tryPair top o with
    | none => rw [htp] at hsome; exact Bool.noConfusion hsome
    | some a0 =>
      rw [htp] at h2
      simp only [Option.map_some'] at h2
      exact Option.noConfusion h2
  | none =>
    intro other hmem hne hnu
    have hp := List.find?_eq_none.1 hf other hmem
    simp only [Bool.and_eq_true, bne_iff_ne, Bool.not_eq_true', not_and] at hp
    cases htp : tryPair top other with
    | none => rfl
    | some a0 =>
      exfalso
      exact absurd (by rw [htp]; rfl) (hp ⟨hne, hnu⟩)

theorem ids_append (a b : List Player) : ids (a ++ b) = ids a ++ ids b :=
  List.map_append _ _ _

theorem contains_true_iff (l : List Nat) (a : Nat) : l.contains a = true ↔ a ∈ l := by
  simp [List.contains]

theorem contains_false_iff (l : List Nat) (a : Nat) : l.contains a = false ↔ a ∉ l := by
  simp [List.contains]

theorem pairS1Loop_inv (S1full S2 : List Player)
    (hnd : (ids (S1full ++ S2)).Nodup)
    (hsym : SymOpponents (S1full ++ S2)) :
    ∀ (ts pre : List Player) (st : LoopState),
      S1full = pre ++ ts →
      LoopInv S1full S2 pre st →
      LoopInv S1full S2 S1full (pairS1Loop S1full S2 ts st) := by
  have hndsplit := (List.nodup_append).1 (by rw [ids_append] at hnd; exact hnd)
  obtain ⟨hndS1, hndS2, hdisj⟩ := hndsplit
  intro ts
  induction ts with
  | nil =>
    intro pre st hsplit hinv
    rw [List.append_nil] at hsplit
    simpa [pairS1Loop, hsplit] using hinv
  | cons top rest ih =>
    intro pre st hsplit hinv
    obtain ⟨h1, h2, h3, h4, h5, h6, h7, h8, h9⟩ := hinv
    have htopS1 : top ∈ S1full := by
      rw [hsplit]; exact List.mem_append_right _ (List.mem_cons_self _ _)
    have htopid : top.id ∈ ids S1full := List.mem_map_of_mem _ htopS1
    have hsplit' : S1full = (pre ++ [top]) ++ rest := by
      rw [hsplit, List.append_cons]
    have hpreS1 : ∀ p ∈ pre, p ∈ S1full := by
      intro p hp; rw [hsplit]; exact List.mem_append_left _ hp
    have hpreTop : ∀ p ∈ pre, p.id ≠ top.id := by
      intro p hp
      have hnds : (ids pre ++ ids (top :: rest)).Nodup := by
        rw [← ids_append, ← hsplit]; exact hndS1
      have hd := (List.nodup_append).1 hnds
      intro he
      exact hd.2.2 (List.mem_map_of_mem _ hp)
        (he ▸ List.mem_map_of_mem Player.id (List.mem_cons_self top rest))
    simp only [pairS1Loop]
    by_cases hguard : st.used.contains top.id = true
    · rw [if_pos hguard]
      refine ih (pre ++ [top]) st hsplit' ⟨h1, h2, h3, ?_, h5, h6, ?_, h8, h9⟩
      · intro u hu
        obtain ⟨p, hp, he⟩ := h4 u hu
        exact ⟨p, List.mem_append_left _ hp, he⟩
      · intro t ht
        rcases List.mem_append.1 ht with ht | ht
        · exact h7 t ht
        · rw [List.mem_singleton] at ht
          subst ht
          exact Or.inl ((contains_true_iff _ _).1 hguard)
    · rw [if_neg hguard]
      have htopused : top.id ∉ st.used := fun hm =>
        hguard ((contains_true_iff _ _).2 hm)
      have hunpTop : ∀ u ∈ st.unpaired, u.id ≠ top.id := by
        intro u hu
        obtain ⟨p, hp, he⟩ := h4 u hu
        subst he
        exact hpreTop p hp
      cases hfb : findBestS2 top S2 st.used with
      | some ab =>
        obtain ⟨hbmem, hbused, hbtp⟩ :=
          findBestS2_some top S2 st.used ab.1 ab.2 hfb
        have hbid : ab.2.id ∈ ids S2 := List.mem_map_of_mem _ hbmem
        have hbnotused : ab.2.id ∉ st.used := (contains_false_iff _ _).1 hbused
        have htopne : top.id ≠ ab.2.id := fun he => hdisj htopid (he ▸ hbid)
        refine ih (pre ++ [top])
          { used := st.used ++ [top.id, ab.2.id],
            pairs := st.pairs ++ [pairingOf ab.1],
            unpaired := st.unpaired } hsplit'
          ⟨?_, ?_, ?_, ?_, ?_, ?_, ?_, h8, ?_⟩
        · refine (List.nodup_append).2 ⟨h1, ?_, ?_⟩
          · simp [htopne]
          · intro x hx hx2
            rcases List.mem_cons.1 hx2 with rfl | hx2
            · exact htopused hx
            · rw [List.mem_singleton] at hx2
              exact hbnotused (hx2 ▸ hx)
        · rw [pairIds_append]
          exact h2.append (pairIds_arrangement_perm top ab.2 ab.1 hbtp)
        · intro x hx
          rcases List.mem_append.1 hx with hx | hx
          · exact h3 x hx
          · rcases List.mem_cons.1 hx with rfl | hx
            · exact Or.inl htopid
            · rw [List.mem_singleton] at hx
              exact Or.inr (hx ▸ hbid)
        · intro u hu
          obtain ⟨p, hp, he⟩ := h4 u hu
          exact ⟨p, List.mem_append_left _ hp, he⟩
        · intro u hu
          intro hm
          rcases List.mem_append.1 hm with hm | hm
          · exact h5 u hu hm
          · rcases List.mem_cons.1 hm with he | hm
            · exact hunpTop u hu he
            · rw [List.mem_singleton] at hm
              obtain ⟨p, hp, he⟩ := h4 u hu
              refine hdisj ?_ (hm ▸ hbid)
              subst he
              exact show p.id ∈ ids S1full from List.mem_map_of_mem _ (hpreS1 p hp)
        · intro u hu v hv hne
          rcases h6 u hu v hv hne with hm | hc
          · exact Or.inl (List.mem_append_left _ hm)
          · exact Or.inr hc
        · intro t ht
          rcases List.mem_append.1 ht with ht | ht
          · rcases h7 t ht with hm | hm
            · exact Or.inl (List.mem_append_left _ hm)
            · exact Or.inr hm
          · rw [List.mem_singleton] at ht
            subst ht
            exact Or.inl (List.mem_append_right _ (List.mem_cons_self _ _))
        · intro pr hpr
          rcases List.mem_append.1 hpr with hpr | hpr
          · exact h9 pr hpr
          · rw [List.mem_singleton] at hpr
            subst hpr
            obtain ⟨hcan, harr⟩ := tryPair_some top ab.2 ab.1 hbtp
            refine ⟨top, ab.2, List.mem_append_left _ htopS1,
              List.mem_append_right _ hbmem, hcan, ?_⟩
            rcases getColorArrangement_cases top ab.2 with ⟨hw, hb⟩ | ⟨hw, hb⟩
            · exact Or.inl ⟨by rw [pairingOf, harr, hw], by rw [pairingOf, harr, hb]⟩
            · exact Or.inr ⟨by rw [pairingOf, harr, hw], by rw [pairingOf, harr, hb]⟩
      | none =>
        cases hft : findTransposition top S1full st.used with
        | some ao =>
          obtain ⟨homem, hone, houused, hotp⟩ :=
            findTransposition_some top S1full st.used ao.1 ao.2 hft
          have hoid : ao.2.id ∈ ids S1full := List.mem_map_of_mem _ homem
          have honotused : ao.2.id ∉ st.used := (contains_false_iff _ _).1 houused
          have hocan : top.canPairWith ao.2 = true := (tryPair_some top ao.2 ao.1 hotp).1
          have htopne : top.id ≠ ao.2.id := Ne.symm hone
          have hunpO : ∀ u ∈ st.unpaired, u.id ≠ ao.2.id := by
            intro u hu he
            obtain ⟨p, hp, hue⟩ := h4 u hu
            have hpid : p.id = u.id := by rw [hue]
            have htopneu : top.id ≠ u.id := by
              rw [← hpid]; exact fun h => hpreTop p hp h.symm
            rcases h6 u hu top htopS1 htopneu with hm | hc
            · exact htopused hm
            · have hpc : p.opponents.contains top.id = true := by
                rw [hue] at hc; exact hc
              have hts : top.opponents.contains p.id = true :=
                hsym p (List.mem_append_left _ (hpreS1 p hp)) top
                  (List.mem_append_left _ htopS1) hpc
              have hcontr : top.opponents.contains ao.2.id = true := by
                rw [← he, ← hpid]; exact hts
              have hfalse : top.opponents.contains ao.2.id = false := by
                unfold Player.canPairWith at hocan
                simpa using hocan
              rw [hfalse] at hcontr
              exact Bool.noConfusion hcontr
          refine ih (pre ++ [top])
            { used := st.used ++ [top.id, ao.2.id],
              pairs := st.pairs ++ [pairingOf ao.1],
              unpaired := st.unpaired } hsplit'
            ⟨?_, ?_, ?_, ?_, ?_, ?_, ?_, h8, ?_⟩
          · refine (List.nodup_append).2 ⟨h1, ?_, ?_⟩
            · simp [htopne]
            · intro x hx hx2
              rcases List.mem_cons.1 hx2 with rfl | hx2
              · exact htopused hx
              · rw [List.mem_singleton] at hx2
                exact honotused (hx2 ▸ hx)
          · rw [pairIds_append]
            exact h2.append (pairIds_arrangement_perm top ao.2 ao.1 hotp)
          · intro x hx
            rcases List.mem_append.1 hx with hx | hx
            · exact h3 x hx
            · rcases List.mem_cons.1 hx with rfl | hx
              · exact Or.inl htopid
              · rw [List.mem_singleton] at hx
                exact Or.inl (hx ▸ hoid)
          · intro u hu
            obtain ⟨p, hp, he⟩ := h4 u hu
            exact ⟨p, List.mem_append_left _ hp, he⟩
          · intro u hu
            intro hm
            rcases List.mem_append.1 hm with hm | hm
            · exact h5 u hu hm
            · rcases List.mem_cons.1 hm with he | hm
              · exact hunpTop u hu he
              · rw [List.mem_singleton] at hm
                exact hunpO u hu hm
          · intro u hu v hv hne
            rcases h6 u hu v hv hne with hm | hc
            · exact Or.inl (List.mem_append_left _ hm)
            · exact Or.inr hc
          · intro t ht
            rcases List.mem_append.1 ht with ht | ht
            · rcases h7 t ht with hm | hm
              · exact Or.inl (List.mem_append_left _ hm)
              · exact Or.inr hm
            · rw [List.mem_singleton] at ht
              subst ht
              exact Or.inl (List.mem_append_right _ (List.mem_cons_self _ _))
          · intro pr hpr
            rcases List.mem_append.1 hpr with hpr | hpr
            · exact h9 pr hpr
            · rw [List.mem_singleton] at hpr
              subst hpr
              obtain ⟨hcan, harr⟩ := tryPair_some top ao.2 ao.1 hotp
              refine ⟨top, ao.2, List.mem_append_left _ htopS1,
                List.mem_append_left _ homem, hcan, ?_⟩
              rcases getColorArrangement_cases top ao.2 with ⟨hw, hb⟩ | ⟨hw, hb⟩
              · exact Or.inl ⟨by rw [pairingOf, harr, hw], by rw [pairingOf, harr, hb]⟩
              · exact Or.inr ⟨by rw [pairingOf, harr, hw], by rw [pairingOf, harr, hb]⟩
        | none =>
          refine ih (pre ++ [top])
            { used := st.used, pairs := st.pairs,
              unpaired := st.unpaired ++ [{ top with floated := true }] } hsplit'
            ⟨h1, h2, h3, ?_, ?_, ?_, ?_, ?_, h9⟩
          · intro u hu
            rcases List.mem_append.1 hu with hu | hu
            · obtain ⟨p, hp, he⟩ := h4 u hu
              exact ⟨p, List.mem_append_left _ hp, he⟩
            · rw [List.mem_singleton] at hu
              subst hu
              exact ⟨top, List.mem_append_right _ (List.mem_singleton.2 rfl), rfl⟩
          · intro u hu
            rcases List.mem_append.1 hu with hu | hu
            · exact h5 u hu
            · rw [List.mem_singleton] at hu
              subst hu
              exact htopused
          · intro u hu v hv hne
            rcases List.mem_append.1 hu with hu | hu
            · exact h6 u hu v hv hne
            · rw [List.mem_singleton] at hu
              subst hu
              by_cases hvused : v.id ∈ st.used
              · exact Or.inl hvused
              · have hvc : st.used.contains v.id = false :=
                  (contains_false_iff _ _).2 hvused
                have htpn := findTransposition_none top S1full st.used hft v hv hne hvc
                have hcp := tryPair_none top v htpn
                unfold Player.canPairWith at hcp
                refine Or.inr ?_
                simpa using hcp
          · intro t ht
            rcases List.mem_append.1 ht with ht | ht
            · rcases h7 t ht with hm | hm
              · exact Or.inl hm
              · refine Or.inr ?_
                rw [ids_append]
                exact List.mem_append_left _ hm
            · rw [List.mem_singleton] at ht
              subst ht
              refine Or.inr ?_
              rw [ids_append]
              exact List.mem_append_right _ (List.mem_singleton.2 rfl)
          · rw [ids_append]
            refine (List.nodup_append).2 ⟨h8, List.nodup_singleton _, ?_⟩
            intro x hx hx2
            have hx3 : x = top.id := by
              simpa [ids] using hx2
            subst hx3
            obtain ⟨u, hu, hue⟩ := List.mem_map.1 hx
            exact hunpTop u hu hue

theorem ids_floatmap (l : List Player) :
    ids (l.map (fun p => { p with floated := true })) = ids l := by
  unfold ids
  rw [List.map_map]
  rfl

theorem coreOf_mem_of_mem {p : Player} {l : List Player} (h : p ∈ l) :
    (p.id, p.opponents) ∈ coreOf l := List.mem_map_of_mem _ h

theorem mainPairing_spec (allPlayers fl : List Player) (pd : List Nat)
    (hnd : (ids allPlayers).Nodup) (hsym : SymOpponents allPlayers) :
    (pairIds (mainPairing allPlayers fl pd).pairs ++
        ids (mainPairing allPlayers fl pd).unpaired).Perm (ids (fl ++ allPlayers)) ∧
    ((mainPairing allPlayers fl pd).pairedIds).Perm
      (pd ++ pairIds (mainPairing allPlayers fl pd).pairs) ∧
    PairProv1 allPlayers (mainPairing allPlayers fl pd).pairs ∧
    PoolFrom (mainPairing allPlayers fl pd).unpaired (fl ++ allPlayers) := by
  set k := (allPlayers.length + 1) / 2 with hk
  set S1 := allPlayers.take k with hS1
  set S2 := allPlayers.drop k with hS2
  have hsplit : S1 ++ S2 = allPlayers := List.take_append_drop k allPlayers
  have hnd' : (ids (S1 ++ S2)).Nodup := by rw [hsplit]; exact hnd
  have hsym' : SymOpponents (S1 ++ S2) := by rw [hsplit]; exact hsym
  have hinv0 : LoopInv S1 S2 [] { used := [], pairs := [], unpaired := [] } := by
    refine ⟨List.nodup_nil, List.Perm.refl _, ?_, ?_, ?_, ?_, ?_, List.nodup_nil, ?_⟩
    · intro x hx; exact absurd hx (List.not_mem_nil x)
    · intro u hu; exact absurd hu (List.not_mem_nil u)
    · intro u hu; exact absurd hu (List.not_mem_nil u)
    · intro u hu; exact absurd hu (List.not_mem_nil u)
    · intro t ht; exact absurd ht (List.not_mem_nil t)
    · intro pr hpr; exact absurd hpr (List.not_mem_nil pr)
  have hinv := pairS1Loop_inv S1 S2 hnd' hsym' S1 [] _ rfl hinv0
  obtain ⟨h1, h2, h3, h4, h5, h6, h7, h8, h9⟩ := hinv
  set st := pairS1Loop S1 S2 S1 { used := [], pairs := [], unpaired := [] } with hst
  set leftovers := (S2.filter (fun b => !(st.used.contains b.id))).map
    (fun p => { p with floated := true }) with hlef
  have hmp : mainPairing allPlayers fl pd =
      { pairs := st.pairs, unpaired := fl ++ st.unpaired ++ leftovers,
        pairedIds := pd ++ st.used } := by
    simp only [mainPairing, hst, hlef, hS1, hS2, hk]
  rw [hmp]
  have hndsplit := (List.nodup_append).1 (by rw [ids_append] at hnd'; exact hnd')
  obtain ⟨hndS1, hndS2, hdisj⟩ := hndsplit
  have hlefids : ids leftovers = ids (S2.filter (fun b => !(st.used.contains b.id))) :=
    ids_floatmap _
  have hlefmem : ∀ x, x ∈ ids leftovers ↔
      ∃ b ∈ S2, st.used.contains b.id = false ∧ b.id = x := by
    intro x
    rw [hlefids]
    constructor
    · intro hx
      obtain ⟨b, hb, he⟩ := List.mem_map.1 hx
      obtain ⟨hb1, hb2⟩ := List.mem_filter.1 hb
      refine ⟨b, hb1, ?_, he⟩
      simpa using hb2
    · intro ⟨b, hb, hbu, he⟩
      refine List.mem_map.2 ⟨b, List.mem_filter.2 ⟨hb, ?_⟩, he⟩
      simpa using hbu
  have hunpS1 : ∀ x, x ∈ ids st.unpaired → x ∈ ids S1 := by
    intro x hx
    obtain ⟨u, hu, he⟩ := List.mem_map.1 hx
    obtain ⟨p, hp, hpe⟩ := h4 u hu
    subst hpe
    have hpid : p.id = x := he
    exact hpid ▸ List.mem_map_of_mem _ hp
  have hpairsused : ∀ x, x ∈ pairIds st.pairs ↔ x ∈ st.used := fun x => h2.mem_iff
  have hlefnd : (ids leftovers).Nodup := by
    rw [hlefids]
    exact List.Nodup.sublist (List.Sublist.map _ (List.filter_sublist _)) hndS2
  have hcore : (pairIds st.pairs ++ (ids st.unpaired ++ ids leftovers)).Perm
      (ids allPlayers) := by
    have hndall : (ids S1 ++ ids S2).Nodup := by rw [← ids_append, hsplit]; exact hnd
    rw [← hsplit, ids_append]
    refine (List.perm_ext_iff_of_nodup ?_ hndall).2 ?_
    · refine (List.nodup_append).2 ⟨(h2.nodup_iff).2 h1, ?_, ?_⟩
      · refine (List.nodup_append).2 ⟨h8, hlefnd, ?_⟩
        intro x hx hx2
        obtain ⟨b, _, _, hbe⟩ := (hlefmem x).1 hx2
        exact hdisj (hunpS1 x hx) (hbe ▸ List.mem_map_of_mem _ (by assumption))
      · intro x hx hx2
        have hxu : x ∈ st.used := (hpairsused x).1 hx
        rcases List.mem_append.1 hx2 with hx2 | hx2
        · obtain ⟨u, hu, he⟩ := List.mem_map.1 hx2
          exact h5 u hu (he ▸ hxu)
        · obtain ⟨b, _, hbu, hbe⟩ := (hlefmem x).1 hx2
          exact ((contains_false_iff _ _).1 hbu) (hbe ▸ hxu)
    · intro a
      constructor
      · intro ha
        rcases List.mem_append.1 ha with ha | ha
        · rcases h3 a ((hpairsused a).1 ha) with h | h
          · exact List.mem_append_left _ h
          · exact List.mem_append_right _ h
        · rcases List.mem_append.1 ha with ha | ha
          · exact List.mem_append_left _ (hunpS1 a ha)
          · obtain ⟨b, hb, _, hbe⟩ := (hlefmem a).1 ha
            exact List.mem_append_right _ (hbe ▸ List.mem_map_of_mem _ hb)
      · intro ha
        rcases List.mem_append.1 ha with ha | ha
        · obtain ⟨t, ht, hte⟩ := List.mem_map.1 ha
          rcases h7 t ht with hm | hm
          · exact List.mem_append_left _ ((hpairsused a).2 (hte ▸ hm))
          · exact List.mem_append_right _
              (List.mem_append_left _ (hte ▸ hm))
        · obtain ⟨b, hb, hbe⟩ := List.mem_map.1 ha
          by_cases hbu : b.id ∈ st.used
          · exact List.mem_append_left _ ((hpairsused a).2 (hbe ▸ hbu))
          · refine List.mem_append_right _ (List.mem_append_right _ ?_)
            exact (hlefmem a).2 ⟨b, hb, (contains_false_iff _ _).2 hbu, hbe⟩
  refine ⟨?_, ?_, ?_, ?_⟩
  · simp only [ids_append]
    have e1 : pairIds st.pairs ++ (ids fl ++ ids st.unpaired ++ ids leftovers) =
        (pairIds st.pairs ++ ids fl) ++ (ids st.unpaired ++ ids leftovers) := by
      simp [List.append_assoc]
    rw [e1]
    refine (List.perm_append_comm.append_right _).trans ?_
    rw [List.append_assoc]
    exact hcore.append_left (ids fl)
  · exact List.Perm.append_left pd h2.symm
  · rw [← hsplit]; exact h9
  · intro x hx
    rcases List.mem_append.1 hx with hx | hx
    · rcases List.mem_append.1 hx with hx | hx
      · exact coreOf_mem_of_mem (List.mem_append_left _ hx)
      · obtain ⟨p, hp, he⟩ := h4 x hx
        subst he
        have hpall : p ∈ allPlayers := by
          rw [← hsplit]; exact List.mem_append_left _ (by exact hp)
        exact show (p.id, p.opponents) ∈ coreOf (fl ++ allPlayers) from
          coreOf_mem_of_mem (List.mem_append_right _ hpall)
    · obtain ⟨b, hb, he⟩ := List.mem_map.1 hx
      subst he
      have hball : b ∈ allPlayers := by
        rw [← hsplit]
        exact List.mem_append_right _ ((List.mem_filter.1 hb).1)
      exact show (b.id, b.opponents) ∈ coreOf (fl ++ allPlayers) from
        coreOf_mem_of_mem (List.mem_append_right _ hball)

theorem chooseFloaterIdx_lt (allPlayers next : List Player) (avg : Rat)
    (h : allPlayers.length ≠ 0) :
    chooseFloaterIdx allPlayers avg next < allPlayers.length := by
  set len := allPlayers.length with hlen
  set idxs := ((List.range len).drop (len / 2)).reverse with hidxs
  have hinv := foldl_floaterStep_inv allPlayers next avg (len - 1) idxs []
    ((none : Option Rat), len - 1) (Or.inl ⟨rfl, by simp⟩)
  have hchoose : chooseFloaterIdx allPlayers avg next =
      (idxs.foldl (floaterStep allPlayers next avg) ((none : Option Rat), len - 1)).2 :=
    rfl
  rw [hchoose]
  rcases hinv with ⟨hst, _⟩ | ⟨pre1, pre2, hpre, _, _, _, _⟩
  · rw [hst]
    omega
  · rw [List.nil_append] at hpre
    have hmem : (idxs.foldl (floaterStep allPlayers next avg)
        ((none : Option Rat), len - 1)).2 ∈ pre1 ++
        (idxs.foldl (floaterStep allPlayers next avg)
          ((none : Option Rat), len - 1)).2 :: pre2 :=
      List.mem_append_right _ (List.mem_cons_self _ _)
    rw [← hpre] at hmem
    rw [hidxs, List.mem_reverse, mem_drop_range] at hmem
    exact hmem.2

theorem sym_subset (l l' : List Player) (hsub : ∀ x ∈ l', x ∈ l)
    (hsym : SymOpponents l) : SymOpponents l' := by
  intro p hp q hq hc
  exact hsym p (hsub p hp) q (hsub q hq) hc

theorem pairProv1_mono (pool pool' : List Player) (prs : List Pairing)
    (hsub : ∀ x ∈ pool, x ∈ pool') (h : PairProv1 pool prs) : PairProv1 pool' prs := by
  intro pr hpr
  obtain ⟨x, y, hx, hy, hcan, hor⟩ := h pr hpr
  exact ⟨x, y, hsub x hx, hsub y hy, hcan, hor⟩

theorem poolFrom_mono (pool l l' : List Player)
    (hsub : ∀ c ∈ coreOf l, c ∈ coreOf l')
    (h : PoolFrom pool l) : PoolFrom pool l' := by
  intro x hx
  exact hsub _ (h x hx)

theorem pairGroup_spec (group floaters nextG : List Player) (pd : List Nat)
    (hnd : (ids (mergedGroup group floaters pd)).Nodup)
    (hsym : SymOpponents (mergedGroup group floaters pd)) :
    (pairIds (pairGroup group floaters nextG pd).pairs ++
        ids (pairGroup group floaters nextG pd).unpaired).Perm
      (ids (mergedGroup group floaters pd)) ∧
    ((pairGroup group floaters nextG pd).pairedIds).Perm
      (pd ++ pairIds (pairGroup group floaters nextG pd).pairs) ∧
    PairProv1 (mergedGroup group floaters pd) (pairGroup group floaters nextG pd).pairs ∧
    PoolFrom (pairGroup group floaters nextG pd).unpaired
      (mergedGroup group floaters pd) := by
  set all0 := mergedGroup group floaters pd with hall0
  have hpg : pairGroup group floaters nextG pd =
      (if all0.length % 2 == 1 && nextG.length != 0 then
        mainPairing
          (all0.eraseIdx (chooseFloaterIdx all0 (avgNextPrefOf nextG) nextG))
          [{ (all0.getD (chooseFloaterIdx all0 (avgNextPrefOf nextG) nextG) default)
              with floated := true }] pd
      else mainPairing all0 [] pd) := by
    simp only [pairGroup, hall0]
  by_cases hc : (all0.length % 2 == 1 && nextG.length != 0) = true
  · rw [hpg, if_pos hc]
    have hc' := hc
    rw [Bool.and_eq_true] at hc'
    have hodd : all0.length % 2 = 1 := by simpa using hc'.1
    have hlen0 : all0.length ≠ 0 := by omega
    set idx := chooseFloaterIdx all0 (avgNextPrefOf nextG) nextG with hidx
    have hlt : idx < all0.length := chooseFloaterIdx_lt all0 nextG (avgNextPrefOf nextG) hlen0
    have hgetd2 : all0.getD idx default = all0[idx] := by
      rw [List.getD_eq_getElem?_getD, List.getElem?_eq_getElem hlt]
      rfl
    set chosen := all0.getD idx default with hchosen
    have hdecomp : all0 = all0.take idx ++ chosen :: all0.drop (idx + 1) := by
      conv_lhs => rw [← List.take_append_drop idx all0]
      congr 1
      rw [List.drop_eq_getElem_cons hlt, hgetd2]
    have herase : all0.eraseIdx idx = all0.take idx ++ all0.drop (idx + 1) :=
      List.eraseIdx_eq_take_drop_succ all0 idx
    have hsubE : ∀ x ∈ all0.eraseIdx idx, x ∈ all0 :=
      fun x hx => (List.eraseIdx_sublist all0 idx).subset hx
    have hndE : (ids (all0.eraseIdx idx)).Nodup :=
      List.Nodup.sublist (List.Sublist.map _ (List.eraseIdx_sublist all0 idx)) hnd
    have hsymE : SymOpponents (all0.eraseIdx idx) := sym_subset all0 _ hsubE hsym
    have hchmem : chosen ∈ all0 := by
      rw [hgetd2]
      exact List.getElem_mem hlt
    obtain ⟨hperm, hpd2, hprov, hpf⟩ :=
      mainPairing_spec (all0.eraseIdx idx) [{ chosen with floated := true }] pd hndE hsymE
    refine ⟨?_, hpd2, ?_, ?_⟩
    · refine hperm.trans ?_
      have hidsE : ids ([{ chosen with floated := true }] ++ all0.eraseIdx idx) =
          chosen.id :: ids (all0.eraseIdx idx) := rfl
      rw [hidsE, herase, ids_append]
      have hall : ids all0 = ids (all0.take idx) ++ chosen.id :: ids (all0.drop (idx + 1)) := by
        conv_lhs => rw [hdecomp]
        rw [ids_append]
        rfl
      rw [hall]
      exact List.perm_middle.symm
    · exact pairProv1_mono _ _ _ hsubE hprov
    · refine poolFrom_mono _ _ _ ?_ hpf
      intro c hcm
      have hcm' : c = (chosen.id, chosen.opponents) ∨
          ∃ a ∈ all0.eraseIdx idx, (a.id, a.opponents) = c := by
        simpa [coreOf] using hcm
      rcases hcm' with rfl | ⟨a, ha, rfl⟩
      · exact coreOf_mem_of_mem hchmem
      · exact coreOf_mem_of_mem (hsubE a ha)
  · rw [hpg, if_neg hc]
    obtain ⟨hperm, hpd2, hprov, hpf⟩ := mainPairing_spec all0 [] pd hnd hsym
    refine ⟨?_, hpd2, hprov, ?_⟩
    · refine hperm.trans ?_
      rw [List.nil_append]
    · intro x hx
      have := hpf x hx
      rwa [List.nil_append] at this

theorem upsert_keys_cases (acc : List (Rat × List Player)) (p : Player) :
    (upsertGroup acc p).map Prod.fst = acc.map Prod.fst ∨
    (p.score ∉ acc.map Prod.fst ∧
      (upsertGroup acc p).map Prod.fst = acc.map Prod.fst ++ [p.score]) := by
  induction acc with
  | nil => exact Or.inr ⟨List.not_mem_nil _, rfl⟩
  | cons sg rest ih =>
    obtain ⟨s, g⟩ := sg
    by_cases he : p.score = s
    · left
      simp [upsertGroup, he]
    · rcases ih with h | ⟨hnm, h⟩
      · left
        simp only [upsertGroup, if_neg he, List.map_cons, h]
      · right
        constructor
        · simp only [List.map_cons, List.mem_cons]
          rintro (h2 | h2)
          · exact he h2
          · exact hnm h2
        · simp only [upsertGroup, if_neg he, List.map_cons, h]
          rfl

theorem upsert_flatten_perm (acc : List (Rat × List Player)) (p : Player) :
    ((upsertGroup acc p).map Prod.snd).flatten.Perm
      ((acc.map Prod.snd).flatten ++ [p]) := by
  induction acc with
  | nil => simp [upsertGroup]
  | cons sg rest ih =>
    obtain ⟨s, g⟩ := sg
    by_cases he : p.score = s
    · simp only [upsertGroup, if_pos he, List.map_cons, List.flatten_cons]
      rw [List.append_assoc, List.append_assoc]
      exact List.Perm.append_left g List.perm_append_comm
    · simp only [upsertGroup, if_neg he, List.map_cons, List.flatten_cons]
      rw [List.append_assoc]
      exact List.Perm.append_left g ih

theorem foldl_upsert_keys_nodup : ∀ (l : List Player) (acc : List (Rat × List Player)),
    (acc.map Prod.fst).Nodup → ((l.foldl upsertGroup acc).map Prod.fst).Nodup := by
  intro l
  induction l with
  | nil => intro acc h; simpa using h
  | cons p l2 ih =>
    intro acc h
    rw [List.foldl_cons]
    refine ih _ ?_
    rcases upsert_keys_cases acc p with he | ⟨hnm, he⟩
    · rw [he]; exact h
    · rw [he]
      refine (List.nodup_append).2 ⟨h, List.nodup_singleton _, ?_⟩
      intro x hx hx2
      rw [List.mem_singleton] at hx2
      exact hnm (hx2 ▸ hx)

theorem foldl_upsert_flatten : ∀ (l : List Player) (acc : List (Rat × List Player)),
    ((l.foldl upsertGroup acc).map Prod.snd).flatten.Perm
      ((acc.map Prod.snd).flatten ++ l) := by
  intro l
  induction l with
  | nil => intro acc; simp
  | cons p l2 ih =>
    intro acc
    rw [List.foldl_cons]
    refine (ih (upsertGroup acc p)).trans ?_
    refine ((upsert_flatten_perm acc p).append_right l2).trans ?_
    rw [List.append_assoc]
    exact List.Perm.refl _

theorem groupByScore_keys_nodup (players : List Player) :
    ((groupByScore players).map Prod.fst).Nodup := by
  unfold groupByScore
  rw [List.map_map]
  have he : (Prod.fst ∘ fun sg : Rat × List Player =>
      (sg.1, stableSort (fun a b => decide (b.rating ≤ a.rating)) sg.2)) = Prod.fst := rfl
  rw [he]
  exact foldl_upsert_keys_nodup players [] (by simp)

theorem groupByScore_flatten_perm (players : List Player) :
    ((groupByScore players).map Prod.snd).flatten.Perm players := by
  unfold groupByScore
  rw [List.map_map]
  have he : (Prod.snd ∘ fun sg : Rat × List Player =>
      (sg.1, stableSort (fun a b => decide (b.rating ≤ a.rating)) sg.2)) =
      (fun sg : Rat × List Player =>
        stableSort (fun a b => decide (b.rating ≤ a.rating)) sg.2) := rfl
  rw [he]
  have hcong : List.Forall₂ (fun a b => a.Perm b)
      ((players.foldl upsertGroup []).map (fun sg : Rat × List Player =>
        stableSort (fun a b => decide (b.rating ≤ a.rating)) sg.2))
      ((players.foldl upsertGroup []).map Prod.snd) := by
    rw [List.forall₂_map_left_iff, List.forall₂_map_right_iff]
    exact List.forall₂_same.2 (fun sg _ => stableSort_perm _ _)
  refine (List.Perm.flatten_congr hcong).trans ?_
  refine (foldl_upsert_flatten players []).trans ?_
  simp

theorem groupByScore_mem (players : List Player) :
    ∀ sg ∈ groupByScore players, ∀ x ∈ sg.2, x ∈ players := by
  intro sg hsg x hx
  have hm : x ∈ ((groupByScore players).map Prod.snd).flatten :=
    List.mem_flatten.2 ⟨sg.2, List.mem_map_of_mem _ hsg, hx⟩
  exact (groupByScore_flatten_perm players).mem_iff.1 hm

theorem lookup_map_keys (G : List (Rat × List Player))
    (hnd : (G.map Prod.fst).Nodup) :
    (G.map Prod.fst).map (fun s => (G.lookup s).getD []) = G.map Prod.snd := by
  induction G with
  | nil => rfl
  | cons sg rest ih =>
    obtain ⟨s, g⟩ := sg
    rw [List.map_cons, List.nodup_cons] at hnd
    simp only [List.map_cons]
    congr 1
    · simp [List.lookup]
    · have hstep : ∀ s2 ∈ rest.map Prod.fst,
          ((((s, g) :: rest).lookup s2).getD []) = ((rest.lookup s2).getD []) := by
        intro s2 hs2
        have hne : (s2 == s) = false := by
          rw [beq_eq_false_iff_ne]
          intro hbeq
          exact hnd.1 (hbeq ▸ hs2)
        simp [List.lookup, hne]
      rw [List.map_congr_left hstep, ih hnd.2]

theorem joinOf_perm (G : List (Rat × List Player)) (ks : List Rat)
    (hnd : (G.map Prod.fst).Nodup) (hperm : ks.Perm (G.map Prod.fst)) :
    (joinOf G ks).Perm ((G.map Prod.snd).flatten) := by
  unfold joinOf
  rw [List.flatMap_def]
  refine (List.Perm.flatten (hperm.map _)).trans ?_
  rw [lookup_map_keys G hnd]

theorem sym_of_poolFrom (pool players : List Player) (hpf : PoolFrom pool players)
    (hsym : SymOpponents players) : SymOpponents pool := by
  intro x hx y hy hc
  obtain ⟨p, hp, hpe⟩ := List.mem_map.1 (hpf x hx)
  obtain ⟨q, hq, hqe⟩ := List.mem_map.1 (hpf y hy)
  obtain ⟨hpid, hpop⟩ := Prod.mk.inj hpe
  obtain ⟨hqid, hqop⟩ := Prod.mk.inj hqe
  have hc2 : p.opponents.contains q.id = true := by
    rw [hpop, hqid]; exact hc
  have h2 := hsym p hp q hq hc2
  rw [hqop, hpid] at h2
  exact h2

theorem poolFrom_trans (a b c : List Player) (h1 : PoolFrom a b) (h2 : PoolFrom b c) :
    PoolFrom a c := by
  intro x hx
  obtain ⟨p, hp, hpe⟩ := List.mem_map.1 (h1 x hx)
  have h3 := h2 p hp
  rw [hpe] at h3
  exact h3

theorem poolFrom_append (a b c : List Player) (h1 : PoolFrom a c) (h2 : PoolFrom b c) :
    PoolFrom (a ++ b) c := by
  intro x hx
  rcases List.mem_append.1 hx with hx | hx
  · exact h1 x hx
  · exact h2 x hx

theorem mergedGroup_poolFrom (group floaters : List Player) (pd : List Nat) :
    PoolFrom (mergedGroup group floaters pd) (floaters ++ group) := by
  intro x hx
  unfold mergedGroup at hx
  obtain ⟨p, hp, he⟩ := List.mem_map.1 hx
  subst he
  exact show (p.id, p.opponents) ∈ _ from
    coreOf_mem_of_mem (List.mem_filter.1 hp).1

theorem ids_mergedGroup (group floaters : List Player) (pd : List Nat)
    (hdisj : ∀ x ∈ floaters ++ group, pd.contains x.id = false) :
    ids (mergedGroup group floaters pd) = ids (floaters ++ group) := by
  unfold mergedGroup
  have hfil : (floaters ++ group).filter (fun p => !(pd.contains p.id)) =
      floaters ++ group := by
    rw [List.filter_eq_self]
    intro a ha
    rw [hdisj a ha]
    rfl
  rw [hfil]
  unfold ids
  rw [List.map_map]
  rfl

theorem pairProv1_toC (pool players : List Player) (prs : List Pairing)
    (hpf : PoolFrom pool players) (h : PairProv1 pool prs) :
    PairProvC players prs := by
  intro pr hpr b hb
  obtain ⟨x, y, hx, hy, hcan, hor⟩ := h pr hpr
  refine ⟨x, y, hpf x hx, hpf y hy, hcan, ?_⟩
  rcases hor with ⟨hw, hbk⟩ | ⟨hw, hbk⟩
  · rw [hb] at hbk
    exact Or.inl ⟨hw, Option.some.inj hbk⟩
  · rw [hb] at hbk
    exact Or.inr ⟨hw, Option.some.inj hbk⟩

theorem pairProvC_append (players : List Player) (a b : List Pairing)
    (ha : PairProvC players a) (hb : PairProvC players b) :
    PairProvC players (a ++ b) := by
  intro pr hpr
  rcases List.mem_append.1 hpr with h | h
  · exact ha pr h
  · exact hb pr h

theorem pairProvC_nil (players : List Player) : PairProvC players [] := by
  intro pr hpr
  exact absurd hpr (List.not_mem_nil pr)

theorem groupLoop_spec (G : List (Rat × List Player)) (players : List Player)
    (hsymP : SymOpponents players)
    (hGpf : ∀ sg ∈ G, PoolFrom sg.2 players) :
    ∀ (rs : List Rat) (fl : List Player) (pd : List Nat) (acc : List Pairing),
      PoolFrom fl players →
      (pairIds acc ++ (ids fl ++ ids (joinOf G rs))).Nodup →
      (∀ x, x ∈ ids fl ++ ids (joinOf G rs) → x ∉ pd) →
      PairProvC players acc →
      (pairIds (groupLoop G rs fl pd acc).1 ++
          ids (groupLoop G rs fl pd acc).2.1).Perm
        (pairIds acc ++ (ids fl ++ ids (joinOf G rs))) ∧
      PairProvC players (groupLoop G rs fl pd acc).1 ∧
      PoolFrom (groupLoop G rs fl pd acc).2.1 players := by
  intro rs
  induction rs with
  | nil =>
    intro fl pd acc hpf hnd hpd hprov
    refine ⟨?_, hprov, hpf⟩
    simp [groupLoop, joinOf, ids]
  | cons s rs2 ih =>
    intro fl pd acc hpf hnd hpd hprov
    have hjoin : joinOf G (s :: rs2) = ((G.lookup s).getD []) ++ joinOf G rs2 := by
      simp [joinOf]
    rw [hjoin, ids_append] at hnd hpd
    have hgpf : PoolFrom ((G.lookup s).getD []) players := by
      cases hlk : G.lookup s with
      | none =>
        intro x hx
        exact absurd hx (List.not_mem_nil x)
      | some g =>
        obtain ⟨l1, l2, hgl, _⟩ := List.lookup_eq_some_iff.1 hlk
        have hmem : (s, g) ∈ G := by
          rw [hgl]
          exact List.mem_append_right _ (List.mem_cons_self _ _)
        exact hGpf (s, g) hmem
    have hndrest : (ids fl ++ (ids ((G.lookup s).getD []) ++ ids (joinOf G rs2))).Nodup :=
      List.Nodup.of_append_right hnd
    obtain ⟨hndF, hndGJ, hdisjF⟩ := (List.nodup_append).1 hndrest
    obtain ⟨hndGp, hndJ, hdisjGJ⟩ := (List.nodup_append).1 hndGJ
    have hndFG : (ids fl ++ ids ((G.lookup s).getD [])).Nodup := by
      refine (List.nodup_append).2 ⟨hndF, hndGp, ?_⟩
      intro x hx hx2
      exact hdisjF hx (List.mem_append_left _ hx2)
    have hdisjpd : ∀ x ∈ fl ++ (G.lookup s).getD [], pd.contains x.id = false := by
      intro x hx
      rw [contains_false_iff]
      rcases List.mem_append.1 hx with hx | hx
      · exact hpd x.id (List.mem_append_left _ (List.mem_map_of_mem _ hx))
      · exact hpd x.id (List.mem_append_right _
          (List.mem_append_left _ (List.mem_map_of_mem _ hx)))
    have hidsM : ids (mergedGroup ((G.lookup s).getD []) fl pd) =
        ids fl ++ ids ((G.lookup s).getD []) := by
      rw [ids_mergedGroup _ _ _ hdisjpd, ids_append]
    have hndM : (ids (mergedGroup ((G.lookup s).getD []) fl pd)).Nodup := by
      rw [hidsM]; exact hndFG
    have hpfM : PoolFrom (mergedGroup ((G.lookup s).getD []) fl pd) players :=
      poolFrom_trans _ _ _ (mergedGroup_poolFrom _ _ _) (poolFrom_append _ _ _ hpf hgpf)
    have hsymM : SymOpponents (mergedGroup ((G.lookup s).getD []) fl pd) :=
      sym_of_poolFrom _ _ hpfM hsymP
    obtain ⟨ng, hng⟩ : ∃ ng : List Player,
        groupLoop G (s :: rs2) fl pd acc =
          groupLoop G rs2 (pairGroup ((G.lookup s).getD []) fl ng pd).unpaired
            (pairGroup ((G.lookup s).getD []) fl ng pd).pairedIds
            (acc ++ (pairGroup ((G.lookup s).getD []) fl ng pd).pairs) :=
      ⟨_, by simp only [groupLoop]; rfl⟩
    rw [hng]
    set r := pairGroup ((G.lookup s).getD []) fl ng pd with hr
    obtain ⟨hP, hPd, hProv1, hPf⟩ :=
      pairGroup_spec ((G.lookup s).getD []) fl ng pd hndM hsymM
    rw [← hr] at hP hPd hProv1 hPf
    rw [hidsM] at hP
    have hjuggle : ((pairIds acc ++ pairIds r.pairs) ++
        (ids r.unpaired ++ ids (joinOf G rs2))).Perm
        (pairIds acc ++ (ids fl ++ (ids ((G.lookup s).getD []) ++ ids (joinOf G rs2)))) := by
      have e1 : (pairIds acc ++ pairIds r.pairs) ++
          (ids r.unpaired ++ ids (joinOf G rs2)) =
          pairIds acc ++ ((pairIds r.pairs ++ ids r.unpaired) ++ ids (joinOf G rs2)) := by
        simp [List.append_assoc]
      have e2 : pairIds acc ++ (ids fl ++ (ids ((G.lookup s).getD []) ++ ids (joinOf G rs2))) =
          pairIds acc ++ ((ids fl ++ ids ((G.lookup s).getD [])) ++ ids (joinOf G rs2)) := by
        simp [List.append_assoc]
      rw [e1, e2]
      exact List.Perm.append_left _ (hP.append_right _)
    have hndNU : (pairIds r.pairs ++ ids r.unpaired).Nodup :=
      (hP.nodup_iff).2 hndFG
    obtain ⟨hndN, hndU, hdisjNU⟩ := (List.nodup_append).1 hndNU
    have hnd2 : (pairIds (acc ++ r.pairs) ++
        (ids r.unpaired ++ ids (joinOf G rs2))).Nodup := by
      rw [pairIds_append]
      exact (hjuggle.nodup_iff).2 hnd
    have hpd2 : ∀ x, x ∈ ids r.unpaired ++ ids (joinOf G rs2) → x ∉ r.pairedIds := by
      intro x hx hxpd
      have hxpd2 : x ∈ pd ++ pairIds r.pairs := hPd.mem_iff.1 hxpd
      rcases List.mem_append.1 hx with hx | hx
      · have hxFG : x ∈ ids fl ++ ids ((G.lookup s).getD []) :=
          hP.mem_iff.1 (List.mem_append_right _ hx)
        rcases List.mem_append.1 hxpd2 with hp2 | hp2
        · rcases List.mem_append.1 hxFG with hf | hf
          · exact hpd x (List.mem_append_left _ hf) hp2
          · exact hpd x (List.mem_append_right _ (List.mem_append_left _ hf)) hp2
        · exact hdisjNU hp2 hx
      · rcases List.mem_append.1 hxpd2 with hp2 | hp2
        · exact hpd x (List.mem_append_right _ (List.mem_append_right _ hx)) hp2
        · have hxFG : x ∈ ids fl ++ ids ((G.lookup s).getD []) :=
            hP.mem_iff.1 (List.mem_append_left _ hp2)
          rcases List.mem_append.1 hxFG with hf | hf
          · exact hdisjF hf (List.mem_append_right _ hx)
          · exact hdisjGJ hf hx
    have hpf2 : PoolFrom r.unpaired players := poolFrom_trans _ _ _ hPf hpfM
    have hprov2 : PairProvC players (acc ++ r.pairs) :=
      pairProvC_append _ _ _ hprov (pairProv1_toC _ _ _ hpfM hProv1)
    obtain ⟨hPerm3, hProv3, hPf3⟩ := ih r.unpaired r.pairedIds (acc ++ r.pairs)
      hpf2 hnd2 hpd2 hprov2
    refine ⟨?_, hProv3, hPf3⟩
    rw [hjoin, ids_append]
    refine hPerm3.trans ?_
    rw [pairIds_append]
    exact hjuggle

theorem ids_erase_perm (l : List Player) (i : Nat) (h : i < l.length) :
    (l[i].id :: ids (l.eraseIdx i)).Perm (ids l) := by
  have hdecomp : l = l.take i ++ l[i] :: l.drop (i + 1) := by
    conv_lhs => rw [← List.take_append_drop i l]
    congr 1
    rw [List.drop_eq_getElem_cons h]
  have herase : l.eraseIdx i = l.take i ++ l.drop (i + 1) :=
    List.eraseIdx_eq_take_drop_succ l i
  rw [herase, ids_append]
  have hall : ids l = ids (l.take i) ++ l[i].id :: ids (l.drop (i + 1)) := by
    conv_lhs => rw [hdecomp]
    rw [ids_append]
    rfl
  rw [hall]
  exact List.perm_middle.symm

theorem poolFrom_subset (l l2 players : List Player) (h : PoolFrom l players)
    (hs : ∀ x ∈ l2, x ∈ l) : PoolFrom l2 players :=
  fun x hx => h x (hs x hx)

theorem pairProvC_single (players : List Player) (x y : Player) (arr : Arrangement)
    (hx : (x.id, x.opponents) ∈ coreOf players)
    (hy : (y.id, y.opponents) ∈ coreOf players)
    (htp : tryPair x y = some arr) :
    ∀ b, (pairingOf arr).black = some b →
      ∃ x2 y2 : Player, (x2.id, x2.opponents) ∈ coreOf players ∧
        (y2.id, y2.opponents) ∈ coreOf players ∧ x2.canPairWith y2 = true ∧
        (((pairingOf arr).white = x2.id ∧ b = y2.id) ∨
         ((pairingOf arr).white = y2.id ∧ b = x2.id)) := by
  intro b hb
  obtain ⟨hcan, harr⟩ := tryPair_some x y arr htp
  refine ⟨x, y, hx, hy, hcan, ?_⟩
  have hbk : (pairingOf arr).black = some arr.black.id := rfl
  rw [hb] at hbk
  have hbb : b = arr.black.id := Option.some.inj hbk
  have hw : (pairingOf arr).white = arr.white.id := rfl
  rcases getColorArrangement_cases x y with ⟨hw2, hb2⟩ | ⟨hw2, hb2⟩
  · left
    exact ⟨by rw [hw, harr, hw2], by rw [hbb, harr, hb2]⟩
  · right
    exact ⟨by rw [hw, harr, hw2], by rw [hbb, harr, hb2]⟩

theorem residualLoop_eq_nofind (fuel : Nat) (p1 p2 : Player) (tl : List Player)
    (hfi : (p2 :: tl).findIdx? (fun q => (tryPair p1 q).isSome) = none) :
    residualLoop (fuel + 1) (p1 :: p2 :: tl) = ([], (p2 :: tl) ++ [p1]) := by
  simp only [residualLoop]
  rw [hfi]

theorem residualLoop_eq_tpnone (fuel : Nat) (p1 p2 : Player) (tl : List Player) (i : Nat)
    (hfi : (p2 :: tl).findIdx? (fun q => (tryPair p1 q).isSome) = some i)
    (htp : tryPair p1 ((p2 :: tl).getD i default) = none) :
    residualLoop (fuel + 1) (p1 :: p2 :: tl) = ([], (p2 :: tl) ++ [p1]) := by
  simp only [residualLoop]
  rw [hfi]
  show (match tryPair p1 ((p2 :: tl).getD i default) with
      | some arr => (pairingOf arr :: (residualLoop fuel ((p2 :: tl).eraseIdx i)).1,
          (residualLoop fuel ((p2 :: tl).eraseIdx i)).2)
      | none => ([], (p2 :: tl) ++ [p1])) = ([], (p2 :: tl) ++ [p1])
  rw [htp]

theorem residualLoop_eq_some (fuel : Nat) (p1 p2 : Player) (tl : List Player) (i : Nat)
    (arr : Arrangement)
    (hfi : (p2 :: tl).findIdx? (fun q => (tryPair p1 q).isSome) = some i)
    (htp : tryPair p1 ((p2 :: tl).getD i default) = some arr) :
    residualLoop (fuel + 1) (p1 :: p2 :: tl) =
      (pairingOf arr :: (residualLoop fuel ((p2 :: tl).eraseIdx i)).1,
       (residualLoop fuel ((p2 :: tl).eraseIdx i)).2) := by
  simp only [residualLoop]
  rw [hfi]
  show (match tryPair p1 ((p2 :: tl).getD i default) with
      | some arr => (pairingOf arr :: (residualLoop fuel ((p2 :: tl).eraseIdx i)).1,
          (residualLoop fuel ((p2 :: tl).eraseIdx i)).2)
      | none => ([], (p2 :: tl) ++ [p1])) =
    (pairingOf arr :: (residualLoop fuel ((p2 :: tl).eraseIdx i)).1,
     (residualLoop fuel ((p2 :: tl).eraseIdx i)).2)
  rw [htp]

theorem residualLoop_spec (players : List Player) :
    ∀ (fuel : Nat) (fl : List Player),
      PoolFrom fl players →
      ((pairIds (residualLoop fuel fl).1 ++ ids (residualLoop fuel fl).2).Perm (ids fl) ∧
       PairProvC players (residualLoop fuel fl).1 ∧
       PoolFrom (residualLoop fuel fl).2 players) := by
  have hback : ∀ (p1 p2 : Player) (tl : List Player),
      PoolFrom (p1 :: p2 :: tl) players →
      ((pairIds ([] : List Pairing) ++ ids ((p2 :: tl) ++ [p1])).Perm (ids (p1 :: p2 :: tl)) ∧
       PairProvC players ([] : List Pairing) ∧
       PoolFrom ((p2 :: tl) ++ [p1]) players) := by
    intro p1 p2 tl hpf
    refine ⟨?_, pairProvC_nil _, ?_⟩
    · rw [ids_append]
      show ([] ++ (ids (p2 :: tl) ++ [p1.id])).Perm (p1.id :: ids (p2 :: tl))
      rw [List.nil_append]
      exact List.perm_append_singleton _ _
    · refine poolFrom_subset (p1 :: p2 :: tl) _ players hpf ?_
      intro x hx
      rcases List.mem_append.1 hx with hx | hx
      · exact List.mem_cons_of_mem _ hx
      · rw [List.mem_singleton] at hx
        exact hx ▸ List.mem_cons_self _ _
  intro fuel
  induction fuel with
  | zero =>
    intro fl hpf
    match fl with
    | [] =>
      exact ⟨by simp [residualLoop, pairIds, ids], pairProvC_nil _, by
        simp only [residualLoop]; intro x hx; exact absurd hx (List.not_mem_nil x)⟩
    | [p] =>
      exact ⟨by simp [residualLoop, pairIds], pairProvC_nil _, by
        simp only [residualLoop]; exact hpf⟩
    | p1 :: p2 :: tl =>
      exact ⟨by simp [residualLoop, pairIds], pairProvC_nil _, by
        simp only [residualLoop]; exact hpf⟩
  | succ fuel ih =>
    intro fl hpf
    match fl with
    | [] =>
      exact ⟨by simp [residualLoop, pairIds, ids], pairProvC_nil _, by
        simp only [residualLoop]; intro x hx; exact absurd hx (List.not_mem_nil x)⟩
    | [p] =>
      exact ⟨by simp [residualLoop, pairIds], pairProvC_nil _, by
        simp only [residualLoop]; exact hpf⟩
    | p1 :: p2 :: tl =>
      cases hfi : (p2 :: tl).findIdx? (fun q => (tryPair p1 q).isSome) with
      | none =>
        rw [residualLoop_eq_nofind fuel p1 p2 tl hfi]
        exact hback p1 p2 tl hpf
      | some i =>
        obtain ⟨hlt, hpred, hmin⟩ := List.findIdx?_eq_some_iff_getElem.1 hfi
        have hgetd : (p2 :: tl).getD i default = (p2 :: tl)[i] := by
          rw [List.getD_eq_getElem?_getD, List.getElem?_eq_getElem hlt]
          rfl
        cases htp : tryPair p1 ((p2 :: tl).getD i default) with
        | none =>
          rw [residualLoop_eq_tpnone fuel p1 p2 tl i hfi htp]
          exact hback p1 p2 tl hpf
        | some arr =>
          rw [residualLoop_eq_some fuel p1 p2 tl i arr hfi htp]
          rw [hgetd] at htp
          have hsubE : ∀ x ∈ (p2 :: tl).eraseIdx i, x ∈ (p1 :: p2 :: tl) := fun x hx =>
            List.mem_cons_of_mem _ ((List.eraseIdx_sublist _ i).subset hx)
          obtain ⟨hPm, hPv, hPf⟩ := ih ((p2 :: tl).eraseIdx i)
            (poolFrom_subset (p1 :: p2 :: tl) _ players hpf hsubE)
          refine ⟨?_, ?_, hPf⟩
          · have hcons : pairIds (pairingOf arr ::
                (residualLoop fuel ((p2 :: tl).eraseIdx i)).1) =
                pairIds [pairingOf arr] ++
                  pairIds (residualLoop fuel ((p2 :: tl).eraseIdx i)).1 := by
              simp [pairIds]
            show (pairIds (pairingOf arr :: (residualLoop fuel ((p2 :: tl).eraseIdx i)).1) ++
              ids (residualLoop fuel ((p2 :: tl).eraseIdx i)).2).Perm (ids (p1 :: p2 :: tl))
            rw [hcons, List.append_assoc]
            refine ((pairIds_arrangement_perm p1 ((p2 :: tl)[i]) arr htp).append_right
              _).trans ?_
            refine (List.Perm.append_left _ hPm).trans ?_
            show (p1.id :: (p2 :: tl)[i].id :: ids ((p2 :: tl).eraseIdx i)).Perm
              (p1.id :: ids (p2 :: tl))
            exact (ids_erase_perm (p2 :: tl) i hlt).cons p1.id
          · intro pr hpr b hb
            rcases List.mem_cons.1 hpr with he | hm
            · subst he
              exact pairProvC_single players p1 ((p2 :: tl)[i]) arr
                (hpf p1 (List.mem_cons_self _ _))
                (hpf _ (List.mem_cons_of_mem _ (List.getElem_mem hlt)))
                htp b hb
            · exact hPv pr hm b hb

theorem pipeline_spec (players activePlayers : List Player) (pd0 : List Nat)
    (hndA : (ids activePlayers).Nodup)
    (hsymP : SymOpponents players)
    (hpfA : PoolFrom activePlayers players)
    (hpd0 : ∀ x ∈ ids activePlayers, x ∉ pd0) :
    (pairIds (groupLoop (groupByScore activePlayers)
        (stableSort (fun a b => decide (b ≤ a))
          ((groupByScore activePlayers).map Prod.fst)) [] pd0 []).1 ++
      (pairIds (residualPass (groupLoop (groupByScore activePlayers)
          (stableSort (fun a b => decide (b ≤ a))
            ((groupByScore activePlayers).map Prod.fst)) [] pd0 []).2.1).1 ++
        ids (residualPass (groupLoop (groupByScore activePlayers)
          (stableSort (fun a b => decide (b ≤ a))
            ((groupByScore activePlayers).map Prod.fst)) [] pd0 []).2.1).2)).Perm
      (ids activePlayers) ∧
    PairProvC players ((groupLoop (groupByScore activePlayers)
        (stableSort (fun a b => decide (b ≤ a))
          ((groupByScore activePlayers).map Prod.fst)) [] pd0 []).1 ++
      (residualPass (groupLoop (groupByScore activePlayers)
          (stableSort (fun a b => decide (b ≤ a))
            ((groupByScore activePlayers).map Prod.fst)) [] pd0 []).2.1).1) ∧
    PoolFrom (residualPass (groupLoop (groupByScore activePlayers)
        (stableSort (fun a b => decide (b ≤ a))
          ((groupByScore activePlayers).map Prod.fst)) [] pd0 []).2.1).2 players := by
  set G := groupByScore activePlayers with hG
  set SS := stableSort (fun a b => decide (b ≤ a)) (G.map Prod.fst) with hSS
  have hkeys : (G.map Prod.fst).Nodup := groupByScore_keys_nodup activePlayers
  have hscoresperm : SS.Perm (G.map Prod.fst) := stableSort_perm _ _
  have hjoinperm : (joinOf G SS).Perm activePlayers :=
    (joinOf_perm G SS hkeys hscoresperm).trans (groupByScore_flatten_perm activePlayers)
  have hidsjoin : (ids (joinOf G SS)).Perm (ids activePlayers) := hjoinperm.map _
  have hGpf : ∀ sg ∈ G, PoolFrom sg.2 players := by
    intro sg hsg x hx
    exact hpfA x (groupByScore_mem activePlayers sg hsg x hx)
  obtain ⟨hgl1, hgl2, hgl3⟩ := groupLoop_spec G players hsymP hGpf SS [] pd0 []
    (fun x hx => absurd hx (List.not_mem_nil x))
    (by
      show (pairIds [] ++ (ids [] ++ ids (joinOf G SS))).Nodup
      have he : pairIds [] ++ (ids [] ++ ids (joinOf G SS)) = ids (joinOf G SS) := rfl
      rw [he]
      exact (hidsjoin.nodup_iff).2 hndA)
    (by
      intro x hx
      have hx2 : x ∈ ids (joinOf G SS) := by
        have he : ids ([] : List Player) ++ ids (joinOf G SS) = ids (joinOf G SS) := rfl
        rw [he] at hx
        exact hx
      exact hpd0 x (hidsjoin.mem_iff.1 hx2))
    (pairProvC_nil players)
  set glr := groupLoop G SS [] pd0 [] with hglr
  have hglperm : (pairIds glr.1 ++ ids glr.2.1).Perm (ids activePlayers) := by
    refine hgl1.trans ?_
    have he : pairIds ([] : List Pairing) ++ (ids ([] : List Player) ++ ids (joinOf G SS)) =
        ids (joinOf G SS) := rfl
    rw [he]
    exact hidsjoin
  obtain ⟨hrp1, hrp2, hrp3⟩ := residualLoop_spec players glr.2.1.length glr.2.1 hgl3
  refine ⟨?_, pairProvC_append _ _ _ hgl2 hrp2, hrp3⟩
  refine (List.Perm.append_left _ hrp1).trans hglperm

theorem pairIds_mapIdx (l : List Pairing) :
    pairIds (l.mapIdx (fun i pr => { pr with boardNo := i + 1 })) = pairIds l := by
  rw [List.mapIdx_eq_enum_map]
  unfold pairIds
  rw [List.flatMap_map]
  conv_rhs => rw [← List.enum_map_snd l]
  rw [List.flatMap_map]
  rfl

theorem nodup_perm_filter_ne (l : List Nat) (a : Nat) (hnd : l.Nodup) (ha : a ∈ l) :
    l.Perm (a :: l.filter (fun x => decide (x ≠ a))) := by
  refine (List.perm_cons_erase ha).trans ?_
  refine List.Perm.cons a ?_
  rw [List.Nodup.erase_eq_filter hnd a]
  have he : (fun x : Nat => x != a) = (fun x : Nat => decide (x ≠ a)) := by
    funext x
    by_cases h : x = a <;> simp [h, bne]
  rw [he]

theorem pairProvC_mapIdx (players : List Player) (l : List Pairing)
    (h : PairProvC players l) :
    PairProvC players (l.mapIdx (fun i pr => { pr with boardNo := i + 1 })) := by
  intro pr hpr b hb
  rw [List.mapIdx_eq_enum_map] at hpr
  obtain ⟨ip, hmem, he⟩ := List.mem_map.1 hpr
  have hpr0 : ip.2 ∈ l := by
    have h2 := List.mem_map_of_mem Prod.snd hmem
    rwa [List.enum_map_snd] at h2
  subst he
  obtain ⟨x, y, hx, hy, hcan, hor⟩ := h ip.2 hpr0 b (show ip.2.black = some b from hb)
  exact ⟨x, y, hx, hy, hcan, hor⟩

theorem pairProvC_bye (players : List Player) (n : Nat) :
    PairProvC players [{ white := n, black := none, boardNo := 0 }] := by
  intro pr hpr b hb
  rw [List.mem_singleton] at hpr
  subst hpr
  exact Option.noConfusion hb

theorem gsrp_spec (players : List Player) (hnd : (ids players).Nodup)
    (hsym : SymOpponents players) :
    (∃ omitted : List Nat, (∀ x ∈ omitted, x ∈ ids players) ∧
      (pairIds (generateSubsequentRoundPairings players) ++ omitted).Perm (ids players)) ∧
    PairProvC players (generateSubsequentRoundPairings players) := by
  by_cases hpar : (players.length % 2 == 1) = true
  · cases hsrt : stableSort byeLe players with
    | nil =>
      exfalso
      have hlen := (stableSort_perm byeLe players).length_eq
      rw [hsrt] at hlen
      have hlen0 : players.length = 0 := by simpa using hlen.symm
      rw [hlen0] at hpar
      simp at hpar
    | cons bp rest =>
      have hbp : bp ∈ players := (stableSort_perm byeLe players).subset
        (by rw [hsrt]; exact List.mem_cons_self _ _)
      have hbpid : bp.id ∈ ids players := List.mem_map_of_mem _ hbp
      simp only [generateSubsequentRoundPairings, hpar, hsrt, if_true]
      rw [pairIds_mapIdx]
      set A := players.filter (fun p => decide (p.id ≠ bp.id)) with hA
      have hfilter : ids A = (ids players).filter (fun x => decide (x ≠ bp.id)) := by
        rw [hA]
        unfold ids
        rw [List.filter_map]
        rfl
      have hidA : (ids players).Perm (bp.id :: ids A) := by
        rw [hfilter]
        exact nodup_perm_filter_ne (ids players) bp.id hnd hbpid
      have hndcons : (bp.id :: ids A).Nodup := (hidA.nodup_iff).1 hnd
      rw [List.nodup_cons] at hndcons
      obtain ⟨hbpA, hndA⟩ := hndcons
      have hpfA : PoolFrom A players :=
        poolFrom_subset players A players (fun x hx => coreOf_mem_of_mem hx)
          (fun x hx => List.mem_of_mem_filter hx)
      have hpd0 : ∀ x ∈ ids A, x ∉ [bp.id] := by
        intro x hx hmem
        rw [List.mem_singleton] at hmem
        exact hbpA (hmem ▸ hx)
      obtain ⟨hP, hProv, hPfRp⟩ := pipeline_spec players A [bp.id] hndA hsym hpfA hpd0
      set glr := groupLoop (groupByScore A)
        (stableSort (fun a b => decide (b ≤ a)) ((groupByScore A).map Prod.fst))
        [] [bp.id] [] with hglr
      set rp := residualPass glr.2.1 with hrpdef
      cases hrp2 : rp.2 with
      | nil =>
        rw [hrp2] at hP
        have hids0 : ids ([] : List Player) = [] := rfl
        rw [hids0, List.append_nil] at hP
        constructor
        · refine ⟨[], ?_, ?_⟩
          · intro x hx
            exact absurd hx (List.not_mem_nil x)
          · rw [List.append_nil, pairIds_append, pairIds_append]
            have hbye : pairIds [({ white := bp.id, black := none, boardNo := 0 } : Pairing)] =
                [bp.id] := rfl
            rw [hbye]
            refine (List.perm_append_singleton _ _).trans ?_
            exact (List.Perm.cons bp.id hP).trans hidA.symm
        · refine pairProvC_mapIdx players _ ?_
          exact pairProvC_append _ _ _ hProv (pairProvC_bye players bp.id)
      | cons f tl =>
        cases tl with
        | nil =>
          rw [hrp2] at hP
          have hids1 : ids [f] = [f.id] := rfl
          rw [hids1] at hP
          constructor
          · refine ⟨[bp.id], ?_, ?_⟩
            · intro x hx
              rw [List.mem_singleton] at hx
              exact hx ▸ hbpid
            · rw [pairIds_append, pairIds_append]
              have hbye : pairIds [({ white := f.id, black := none, boardNo := 0 } : Pairing)] =
                  [f.id] := rfl
              rw [hbye]
              refine (List.perm_append_singleton _ _).trans ?_
              refine (List.Perm.cons bp.id ?_).trans hidA.symm
              rw [List.append_assoc]
              exact hP
          · refine pairProvC_mapIdx players _ ?_
            exact pairProvC_append _ _ _ hProv (pairProvC_bye players f.id)
        | cons g tl2 =>
          rw [hrp2] at hP
          constructor
          · refine ⟨ids (f :: g :: tl2), ?_, ?_⟩
            · intro x hx
              have hxA : x ∈ ids A := hP.mem_iff.1
                (List.mem_append_right _ (List.mem_append_right _ hx))
              exact (hidA.mem_iff).2 (List.mem_cons_of_mem _ hxA)
            · rw [pairIds_append, pairIds_append]
              have hbye : pairIds [({ white := bp.id, black := none, boardNo := 0 } : Pairing)] =
                  [bp.id] := rfl
              rw [hbye]
              refine ((List.perm_append_singleton _ _).append_right _).trans ?_
              have he : (bp.id :: (pairIds glr.1 ++ pairIds rp.1)) ++ ids (f :: g :: tl2) =
                  bp.id :: (pairIds glr.1 ++ (pairIds rp.1 ++ ids (f :: g :: tl2))) := by
                simp [List.append_assoc]
              rw [he]
              exact (List.Perm.cons bp.id hP).trans hidA.symm
          · refine pairProvC_mapIdx players _ ?_
            exact pairProvC_append _ _ _ hProv (pairProvC_bye players bp.id)
  · simp only [generateSubsequentRoundPairings, if_neg hpar]
    rw [pairIds_mapIdx]
    obtain ⟨hP, hProv, hPfRp⟩ := pipeline_spec players players [] hnd hsym
      (fun x hx => coreOf_mem_of_mem hx)
      (fun x _ hx => absurd hx (List.not_mem_nil x))
    set glr := groupLoop (groupByScore players)
      (stableSort (fun a b => decide (b ≤ a)) ((groupByScore players).map Prod.fst))
      [] [] [] with hglr
    set rp := residualPass glr.2.1 with hrpdef
    cases hrp2 : rp.2 with
    | nil =>
      rw [hrp2] at hP
      have hids0 : ids ([] : List Player) = [] := rfl
      rw [hids0, List.append_nil] at hP
      constructor
      · refine ⟨[], ?_, ?_⟩
        · intro x hx
          exact absurd hx (List.not_mem_nil x)
        · rw [List.append_nil, List.append_nil, pairIds_append]
          exact hP
      · refine pairProvC_mapIdx players _ ?_
        rw [List.append_nil]
        exact hProv
    | cons f tl =>
      cases tl with
      | nil =>
        rw [hrp2] at hP
        have hids1 : ids [f] = [f.id] := rfl
        rw [hids1] at hP
        constructor
        · refine ⟨[], ?_, ?_⟩
          · intro x hx
            exact absurd hx (List.not_mem_nil x)
          · rw [List.append_nil, pairIds_append, pairIds_append]
            have hbye : pairIds [({ white := f.id, black := none, boardNo := 0 } : Pairing)] =
                [f.id] := rfl
            rw [hbye, List.append_assoc]
            exact hP
        · refine pairProvC_mapIdx players _ ?_
          exact pairProvC_append _ _ _ hProv (pairProvC_bye players f.id)
      | cons g tl2 =>
        rw [hrp2] at hP
        constructor
        · refine ⟨ids (f :: g :: tl2), ?_, ?_⟩
          · intro x hx
            exact hP.mem_iff.1
              (List.mem_append_right _ (List.mem_append_right _ hx))
          · rw [List.append_nil, pairIds_append, List.append_assoc]
            exact hP
        · refine pairProvC_mapIdx players _ ?_
          rw [List.append_nil]
          exact hProv

/-- Claim C1 (corrected): for a roster whose participant ids are pairwise
distinct and whose opponent histories are mutually consistent (symmetric),
`generateSubsequentRoundPairings` places every active participant in at most
one emitted pairing (counting the bye pair): the participant ids of the
emitted pairings, together with a residual set of omitted roster ids, form a
permutation of the roster's ids.  The omitted set is what the engine silently
drops when the residual floater pass ends with mutually unpairable players. -/
theorem C1_amended (players : List Player) (hnd : (ids players).Nodup)
    (hsym : SymOpponents players) :
    ∃ omitted : List Nat, (∀ x ∈ omitted, x ∈ ids players) ∧
      (pairIds (generateSubsequentRoundPairings players) ++ omitted).Perm (ids players) :=
  (gsrp_spec players hnd hsym).1

/-- Witness for C1 at a concrete three-player roster. -/
theorem C1_witness : ∃ omitted : List Nat, (∀ x ∈ omitted, x ∈ ids witFreshTrio) ∧
    (pairIds (generateSubsequentRoundPairings witFreshTrio) ++ omitted).Perm
      (ids witFreshTrio) :=
  C1_amended witFreshTrio (by decide) (by unfold SymOpponents; decide)

/-- Claim C2 (corrected): there is no `PairingInfeasible` error anywhere — the
engine always returns a plain pairing list — and every emitted non-bye pairing
is rematch-free: its white and black ids belong to two roster members neither
of whom records the other as a past opponent (given symmetric histories). -/
theorem C2_amended (players : List Player) (hnd : (ids players).Nodup)
    (hsym : SymOpponents players) :
    ∀ pr ∈ generateSubsequentRoundPairings players, ∀ b, pr.black = some b →
      ∃ p ∈ players, ∃ q ∈ players,
        p.opponents.contains q.id = false ∧ q.opponents.contains p.id = false ∧
        ((pr.white = p.id ∧ b = q.id) ∨ (pr.white = q.id ∧ b = p.id)) := by
  intro pr hpr b hb
  obtain ⟨x, y, hx, hy, hcan, hor⟩ := (gsrp_spec players hnd hsym).2 pr hpr b hb
  obtain ⟨p, hp, hpe⟩ := List.mem_map.1 hx
  obtain ⟨q, hq, hqe⟩ := List.mem_map.1 hy
  obtain ⟨hpid, hpop⟩ := Prod.mk.inj hpe
  obtain ⟨hqid, hqop⟩ := Prod.mk.inj hqe
  have hxy : x.opponents.contains y.id = false := by
    unfold Player.canPairWith at hcan
    simpa using hcan
  have hpq : p.opponents.contains q.id = false := by
    rw [hpop, hqid]
    exact hxy
  have hqp : q.opponents.contains p.id = false := by
    cases h2 : q.opponents.contains p.id with
    | false => rfl
    | true =>
      have h3 := hsym q hq p hp h2
      rw [h3] at hpq
      exact Bool.noConfusion hpq
  refine ⟨p, hp, q, hq, hpq, hqp, ?_⟩
  rcases hor with ⟨hw, hbe⟩ | ⟨hw, hbe⟩
  · exact Or.inl ⟨hw.trans hpid.symm, hbe.trans hqid.symm⟩
  · exact Or.inr ⟨hw.trans hqid.symm, hbe.trans hpid.symm⟩

/-- Witness for C2 at a concrete two-player roster: the emitted board-1 pairing
1 vs 2 is rematch-free. -/
theorem C2_witness : ∃ p ∈ witFreshPair, ∃ q ∈ witFreshPair,
    p.opponents.contains q.id = false ∧ q.opponents.contains p.id = false ∧
    ((({ white := 1, black := some 2, boardNo := 1 } : Pairing).white = p.id ∧ 2 = q.id) ∨
     (({ white := 1, black := some 2, boardNo := 1 } : Pairing).white = q.id ∧ 2 = p.id)) :=
  C2_amended witFreshPair (by decide) (by unfold SymOpponents; decide)
    { white := 1, black := some 2, boardNo := 1 } (by decide) 2 rfl
